import Mathlib

set_option maxRecDepth 40000

/-!
Verification of the image-services repository (a CRI image service in Go)
against its natural-language specification.

The development shallowly embeds the current revision of the service:
  - the layer cache of pkg/service/image_layers.go (the revision with the
    oversize-add guard, zero-size eviction skip and unlink-on-evict; in the
    flattened source drop it is the file unnamed/part_003),
  - the pull / remove pipelines of pkg/service/image_operations.go,
  - the service types of pkg/service/image_service.go (the revision that
    carries the layer cache and the garbage collector),
  - the garbage collector (gc.go, in the flattened source drop the middle
    section of unnamed/part_001).

Machine integers (int64 sizes) are modeled as Int; byte strings as List Nat;
Go maps as association lists; the filesystem as an association list from
paths to file contents; the registry, the metadata-write outcome and
unlink failures as an explicit environment.  Hashing is a real executable
SHA-256, so concrete runs evaluate inside the kernel.
-/

/-! ## Hex encoding and SHA-256 (go-digest, digest.FromString / digest.Canonical) -/

/-- Lowercase hex digit, as produced by Go hex encoding. -/
def hexDigitChar (n : Nat) : Char := if n < 10 then Char.ofNat (48 + n) else Char.ofNat (87 + n)

/-- Lowercase hex string of a byte list (Go hex.EncodeToString / fmt %x on bytes). -/
def bytesToHexStr (bs : List Nat) : String :=
  ⟨bs.flatMap (fun b => [hexDigitChar (b / 16), hexDigitChar (b % 16)])⟩

/-- Bytes of a string.  The image references and digests handled by the
service are ASCII, for which UTF-8 bytes and code points coincide. -/
def strBytes (s : String) : List Nat := s.data.map Char.toNat

/-- Go fmt.Sprintf "%x" applied to a string: hex of its bytes. -/
def hexAscii (s : String) : String := bytesToHexStr (strBytes s)

def M32 : Nat := 4294967296

def rotr32 (n x : Nat) : Nat := ((x >>> n) ||| (x <<< (32 - n))) % M32

def sha256K : List Nat :=
  [1116352408, 1899447441, 3049323471, 3921009573, 961987163, 1508970993,
   2453635748, 2870763221, 3624381080, 310598401, 607225278, 1426881987,
   1925078388, 2162078206, 2614888103, 3248222580, 3835390401, 4022224774,
   264347078, 604807628, 770255983, 1249150122, 1555081692, 1996064986,
   2554220882, 2821834349, 2952996808, 3210313671, 3336571891, 3584528711,
   113926993, 338241895, 666307205, 773529912, 1294757372, 1396182291,
   1695183700, 1986661051, 2177026350, 2456956037, 2730485921, 2820302411,
   3259730800, 3345764771, 3516065817, 3600352804, 4094571909, 275423344,
   430227734, 506948616, 659060556, 883997877, 958139571, 1322822218,
   1537002063, 1747873779, 1955562222, 2024104815, 2227730452, 2361852424,
   2428436474, 2756734187, 3204031479, 3329325298]

def sha256Init : List Nat :=
  [1779033703, 3144134277, 1013904242, 2773480762,
   1359893119, 2600822924, 528734635, 1541459225]

def bytesToWords : List Nat → List Nat
  | b0 :: b1 :: b2 :: b3 :: rest => (((b0 * 256 + b1) * 256 + b2) * 256 + b3) :: bytesToWords rest
  | _ => []

def scheduleStep (w : List Nat) : List Nat :=
  let i := w.length
  let x15 := w.getD (i - 15) 0
  let x2 := w.getD (i - 2) 0
  let s0 := (rotr32 7 x15) ^^^ (rotr32 18 x15) ^^^ (x15 >>> 3)
  let s1 := (rotr32 17 x2) ^^^ (rotr32 19 x2) ^^^ (x2 >>> 10)
  w ++ [(w.getD (i - 16) 0 + s0 + w.getD (i - 7) 0 + s1) % M32]

def extendSchedule (w : List Nat) : List Nat :=
  (List.range 48).foldl (fun acc _ => scheduleStep acc) w

def compressRound (st : List Nat) (kw : Nat × Nat) : List Nat :=
  match st with
  | [a, b, c, d, e, f, g, h] =>
    let S1 := (rotr32 6 e) ^^^ (rotr32 11 e) ^^^ (rotr32 25 e)
    let ch := (e &&& f) ^^^ (((M32 - 1) ^^^ e) &&& g)
    let t1 := (h + S1 + ch + kw.1 + kw.2) % M32
    let S0 := (rotr32 2 a) ^^^ (rotr32 13 a) ^^^ (rotr32 22 a)
    let maj := (a &&& b) ^^^ (a &&& c) ^^^ (b &&& c)
    let t2 := (S0 + maj) % M32
    [(t1 + t2) % M32, a, b, c, (d + t1) % M32, e, f, g]
  | other => other

def compressBlock (h : List Nat) (block : List Nat) : List Nat :=
  let w := extendSchedule (bytesToWords block)
  let st := (sha256K.zip w).foldl compressRound h
  (h.zip st).map (fun p => (p.1 + p.2) % M32)

def lenBytes64 (n : Nat) : List Nat :=
  [n / 2 ^ 56 % 256, n / 2 ^ 48 % 256, n / 2 ^ 40 % 256, n / 2 ^ 32 % 256,
   n / 2 ^ 24 % 256, n / 2 ^ 16 % 256, n / 2 ^ 8 % 256, n % 256]

def padMessage (msg : List Nat) : List Nat :=
  let z := (119 - msg.length % 64) % 64
  msg ++ [128] ++ List.replicate z 0 ++ lenBytes64 (msg.length * 8)

def chunksAux : Nat → List Nat → List (List Nat)
  | _, [] => []
  | 0, _ => []
  | fuel + 1, l => l.take 64 :: chunksAux fuel (l.drop 64)

def chunks64 (l : List Nat) : List (List Nat) := chunksAux l.length l

def wordBytes (w : Nat) : List Nat := [w / 2 ^ 24 % 256, w / 2 ^ 16 % 256, w / 2 ^ 8 % 256, w % 256]

/-- SHA-256 digest (32 bytes) of a byte list. -/
def sha256Bytes (msg : List Nat) : List Nat :=
  let blocks := chunks64 (padMessage msg)
  ((blocks.foldl compressBlock sha256Init).map wordBytes).flatten

/-- Hex form of the SHA-256 digest of a string: go-digest
digest.FromString(s).Hex(). -/
def sha256Hex (s : String) : String := bytesToHexStr (sha256Bytes (strBytes s))

/-- Digest string of raw bytes with the algorithm tag: go-digest
digest.Canonical digester .Digest().String(). -/
def sha256DigestStr (bs : List Nat) : String := "sha256:" ++ bytesToHexStr (sha256Bytes bs)

/-! ## Association-list helpers (Go maps, and the filesystem) -/

/-- Lookup in an association list (Go map read m[k]). -/
def lookupKey {α : Type} (l : List (String × α)) (k : String) : Option α :=
  (l.find? (fun p => p.1 == k)).map (fun p => p.2)

/-- Delete from an association list (Go delete(m, k)). -/
def eraseKey {α : Type} (l : List (String × α)) (k : String) : List (String × α) :=
  l.filter (fun p => p.1 != k)

/-- Insert-or-replace in an association list (Go map write m[k] = v). -/
def setKey {α : Type} (l : List (String × α)) (k : String) (v : α) : List (String × α) :=
  eraseKey l k ++ [(k, v)]

/-- The filesystem: absolute path to file contents (bytes). -/
abbrev Disk := List (String × List Nat)

def removeFile (d : Disk) (p : String) : Disk := eraseKey d p

def setFile (d : Disk) (p : String) (content : List Nat) : Disk := setKey d p content

/-- Byte-prefix test (strings are compared as their character lists;
String.isPrefixOf itself does not reduce in the kernel). -/
def strIsPrefixOf (p s : String) : Bool := p.data.isPrefixOf s.data

def lastComponent : List Char → List Char → List Char
  | [], acc => acc
  | c :: rest, acc => if c = '/' then lastComponent rest [] else lastComponent rest (acc ++ [c])

/-- Last path component, filepath.Base (paths here never end in a slash). -/
def baseName (p : String) : String := ⟨lastComponent p.data []⟩

/-! ## Layer cache (pkg/service/image_layers.go, current revision = unnamed/part_003)

The Go cache keeps two maps with identical key sets, layers (digest to
metadata) and lastUsed (digest to timestamp); every operation updates them
together, so they are modeled as one association list whose values carry
both the metadata and the last-used stamp.  time.Now() is modeled by an
explicit monotone counter passed by the caller. -/

/-- LayerMetadata of image_layers.go: digest, path, size (int64). -/
structure LayerMetadata where
  digest : String
  path : String
  size : Int
deriving Repr, DecidableEq

structure CacheEntry where
  meta : LayerMetadata
  used : Nat
deriving Repr, DecidableEq

structure LayerCache where
  entries : List (String × CacheEntry)
  maxSize : Int
  totalSize : Int
deriving Repr, DecidableEq

/-- NewLayerCache(maxSize). -/
def NewLayerCache (maxSize : Int) : LayerCache := ⟨[], maxSize, 0⟩

namespace LayerCache

/-- Get: on a hit the last-used stamp is refreshed. -/
def Get (c : LayerCache) (now : Nat) (digest : String) : Option LayerMetadata × LayerCache :=
  match lookupKey c.entries digest with
  | none => (none, c)
  | some e => (some e.meta, { c with entries := setKey c.entries digest { e with used := now } })

/-- Remove: drops the entry and subtracts its size from the running total. -/
def Remove (c : LayerCache) (digest : String) : LayerCache :=
  match lookupKey c.entries digest with
  | some e => { c with totalSize := c.totalSize - e.meta.size, entries := eraseKey c.entries digest }
  | none => c

/-- Comparison used by the eviction sort: ascending last-used time
(sort.Slice with used.Before). -/
def usedLE (a b : String × CacheEntry) : Prop := a.2.used ≤ b.2.used

instance : DecidableRel usedLE := fun a b => Nat.decLe a.2.used b.2.used

instance : IsTotal (String × CacheEntry) usedLE := ⟨fun a b => Nat.le_total a.2.used b.2.used⟩

instance : IsTrans (String × CacheEntry) usedLE := ⟨fun _ _ _ => Nat.le_trans⟩

def sortByUsed (l : List (String × CacheEntry)) : List (String × CacheEntry) :=
  List.insertionSort usedLE l

/-- Inner loop of evictLayers: walk the sorted candidates, unlink each
victim file (os.Remove, best effort) and drop the entry, until enough
space is freed. -/
def evictLoop : List (String × CacheEntry) → Int → Int → LayerCache → Disk → LayerCache × Disk
  | [], _, _, c, disk => (c, disk)
  | cand :: rest, needed, freed, c, disk =>
    if needed ≤ freed then (c, disk)
    else
      match lookupKey c.entries cand.1 with
      | some e =>
        let disk1 := if e.meta.path ≠ "" then removeFile disk e.meta.path else disk
        evictLoop rest needed (freed + e.meta.size)
          { c with totalSize := c.totalSize - e.meta.size, entries := eraseKey c.entries cand.1 }
          disk1
      | none => evictLoop rest needed freed c disk

/-- evictLayers(spaceNeeded): candidates are the entries of positive size
(zero-size layers are skipped), in ascending last-used order. -/
def evictLayers (spaceNeeded : Int) (c : LayerCache) (disk : Disk) : LayerCache × Disk :=
  if spaceNeeded ≤ 0 then (c, disk)
  else evictLoop (sortByUsed (c.entries.filter (fun p => decide (0 < p.2.meta.size))))
    spaceNeeded 0 c disk

/-- Add of the current image_layers.go: reject empty digests and negative
sizes; with maxSize = 0 accept everything; reject a layer alone larger
than maxSize; otherwise subtract a replaced entry, evict if needed, then
insert. -/
def Add (c : LayerCache) (disk : Disk) (now : Nat) (digest : String) (metadata : LayerMetadata) :
    LayerCache × Disk :=
  if digest = "" ∨ metadata.size < 0 then (c, disk)
  else if c.maxSize = 0 then
    let c1 :=
      match lookupKey c.entries digest with
      | some e => { c with totalSize := c.totalSize - e.meta.size }
      | none => c
    ({ c1 with entries := setKey c1.entries digest ⟨metadata, now⟩,
               totalSize := c1.totalSize + metadata.size }, disk)
  else if c.maxSize < metadata.size then (c, disk)
  else
    let c1 :=
      match lookupKey c.entries digest with
      | some e => { c with totalSize := c.totalSize - e.meta.size }
      | none => c
    let st2 :=
      if c1.maxSize < c1.totalSize + metadata.size then
        evictLayers (c1.totalSize + metadata.size - c1.maxSize) c1 disk
      else (c1, disk)
    ({ st2.1 with entries := setKey st2.1.entries digest ⟨metadata, now⟩,
                  totalSize := st2.1.totalSize + metadata.size }, st2.2)

/-- Sum of the Size fields of the cached entries. -/
def sumSizes (l : List (String × CacheEntry)) : Int :=
  (l.map (fun p => p.2.meta.size)).sum

def keysNodup (l : List (String × CacheEntry)) : Prop := (l.map Prod.fst).Nodup

/-- Cache well-formedness: the running total matches the entries, keys are
unique, sizes are nonnegative (Add rejects negative sizes). -/
def wf (c : LayerCache) : Prop :=
  c.totalSize = sumSizes c.entries ∧ keysNodup c.entries ∧ ∀ p ∈ c.entries, 0 ≤ p.2.meta.size

instance (c : LayerCache) : Decidable (wf c) := by
  unfold wf keysNodup
  infer_instance

end LayerCache

/-! ## Association-list lemmas -/

section AssocLemmas

variable {α : Type}

theorem lookupKey_mem {l : List (String × α)} {k : String} {v : α}
    (h : lookupKey l k = some v) : (k, v) ∈ l := by
  unfold lookupKey at h
  obtain ⟨p, hf, hv⟩ := Option.map_eq_some'.mp h
  have hp := List.find?_some hf
  have hm := List.mem_of_find?_eq_some hf
  have h1 : p.1 = k := by simpa using hp
  have h2 : p = (k, v) := by
    cases p with
    | mk a b => simp_all
  rwa [h2] at hm

theorem mem_lookupKey {l : List (String × α)} {k : String} {v : α}
    (nd : (l.map Prod.fst).Nodup) (hm : (k, v) ∈ l) : lookupKey l k = some v := by
  induction l with
  | nil => cases hm
  | cons p rest ih =>
    simp only [List.map_cons, List.nodup_cons] at nd
    rcases List.mem_cons.mp hm with h | h
    · simp [lookupKey, List.find?_cons, ← h]
    · have hne : p.1 ≠ k := by
        intro he
        exact nd.1 (he ▸ (List.mem_map.mpr ⟨(k, v), h, rfl⟩))
      have hb : (p.1 == k) = false := by simpa using hne
      simp only [lookupKey, List.find?_cons, hb]
      exact ih nd.2 h

theorem lookupKey_eq_none_iff {l : List (String × α)} {k : String} :
    lookupKey l k = none ↔ ∀ p ∈ l, p.1 ≠ k := by
  unfold lookupKey
  simp [List.find?_eq_none]

theorem mem_eraseKey {l : List (String × α)} {k : String} {p : String × α}
    (h : p ∈ eraseKey l k) : p ∈ l ∧ p.1 ≠ k := by
  unfold eraseKey at h
  have := List.mem_filter.mp h
  simpa using this

theorem eraseKey_sub {l : List (String × α)} {k : String} {p : String × α}
    (h : p ∈ eraseKey l k) : p ∈ l := (mem_eraseKey h).1

theorem mem_eraseKey_of_mem {l : List (String × α)} {k : String} {p : String × α}
    (h : p ∈ l) (hne : p.1 ≠ k) : p ∈ eraseKey l k := by
  unfold eraseKey
  refine List.mem_filter.mpr ⟨h, ?_⟩
  simpa using hne

theorem lookupKey_eraseKey_self {l : List (String × α)} {k : String} :
    lookupKey (eraseKey l k) k = none :=
  lookupKey_eq_none_iff.mpr (fun p hp => (mem_eraseKey hp).2)

theorem lookupKey_cons_eq {p : String × α} {rest : List (String × α)} {k2 : String}
    (h : p.1 = k2) : lookupKey (p :: rest) k2 = some p.2 := by
  unfold lookupKey
  rw [List.find?_cons_of_pos]
  · rfl
  · simpa using h

theorem lookupKey_cons_ne {p : String × α} {rest : List (String × α)} {k2 : String}
    (h : p.1 ≠ k2) : lookupKey (p :: rest) k2 = lookupKey rest k2 := by
  unfold lookupKey
  rw [List.find?_cons_of_neg]
  simpa using h

theorem eraseKey_cons_eq {p : String × α} {rest : List (String × α)} {k : String}
    (h : p.1 = k) : eraseKey (p :: rest) k = eraseKey rest k := by
  unfold eraseKey
  rw [List.filter_cons_of_neg]
  simp [h]

theorem eraseKey_cons_ne {p : String × α} {rest : List (String × α)} {k : String}
    (h : p.1 ≠ k) : eraseKey (p :: rest) k = p :: eraseKey rest k := by
  unfold eraseKey
  rw [List.filter_cons_of_pos]
  simp [h]

theorem lookupKey_eraseKey_ne {l : List (String × α)} {k k2 : String} (h : k2 ≠ k) :
    lookupKey (eraseKey l k) k2 = lookupKey l k2 := by
  induction l with
  | nil => rfl
  | cons p rest ih =>
    by_cases hp : p.1 = k
    · have hne : p.1 ≠ k2 := by rw [hp]; exact Ne.symm h
      rw [eraseKey_cons_eq hp, lookupKey_cons_ne hne]
      exact ih
    · rw [eraseKey_cons_ne hp]
      by_cases hq : p.1 = k2
      · rw [lookupKey_cons_eq hq, lookupKey_cons_eq hq]
      · rw [lookupKey_cons_ne hq, lookupKey_cons_ne hq]
        exact ih

theorem eraseKey_of_lookup_none {l : List (String × α)} {k : String}
    (h : lookupKey l k = none) : eraseKey l k = l := by
  unfold eraseKey
  rw [List.filter_eq_self]
  intro p hp
  have := lookupKey_eq_none_iff.mp h p hp
  simpa using this

theorem lookupKey_append {l1 l2 : List (String × α)} {k : String} :
    lookupKey (l1 ++ l2) k = (lookupKey l1 k).or (lookupKey l2 k) := by
  unfold lookupKey
  rw [List.find?_append]
  cases l1.find? (fun p => p.1 == k) <;> simp

theorem lookupKey_single_ne {k k2 : String} {v : α} (h : k2 ≠ k) :
    lookupKey [(k, v)] k2 = none := by
  have : (k == k2) = false := by
    simp only [beq_eq_false_iff_ne, ne_eq]
    exact fun e => h e.symm
  simp [lookupKey, List.find?_cons, this]

theorem lookupKey_setKey_self {l : List (String × α)} {k : String} {v : α} :
    lookupKey (setKey l k v) k = some v := by
  rw [setKey, lookupKey_append, lookupKey_eraseKey_self]
  simp [lookupKey]

theorem lookupKey_setKey_ne {l : List (String × α)} {k k2 : String} {v : α} (h : k2 ≠ k) :
    lookupKey (setKey l k v) k2 = lookupKey l k2 := by
  rw [setKey, lookupKey_append, lookupKey_eraseKey_ne h, lookupKey_single_ne h]
  cases lookupKey l k2 <;> simp

theorem mem_setKey {l : List (String × α)} {k : String} {v : α} {p : String × α} :
    p ∈ setKey l k v ↔ (p ∈ eraseKey l k ∨ p = (k, v)) := by
  simp [setKey]

end AssocLemmas

/-! ## Layer-cache invariant lemmas -/

namespace LayerCache

theorem sumSizes_nil : sumSizes [] = 0 := rfl

theorem sumSizes_cons {p : String × CacheEntry} {l : List (String × CacheEntry)} :
    sumSizes (p :: l) = p.2.meta.size + sumSizes l := by
  simp [sumSizes]

theorem sumSizes_append {l1 l2 : List (String × CacheEntry)} :
    sumSizes (l1 ++ l2) = sumSizes l1 + sumSizes l2 := by
  simp [sumSizes]

theorem sumSizes_eraseKey {l : List (String × CacheEntry)} {k : String} {e : CacheEntry}
    (nd : keysNodup l) (h : lookupKey l k = some e) :
    sumSizes (eraseKey l k) = sumSizes l - e.meta.size := by
  induction l with
  | nil => simp [lookupKey] at h
  | cons p rest ih =>
    have nd2 : keysNodup rest ∧ p.1 ∉ rest.map Prod.fst := by
      unfold keysNodup at nd ⊢
      simp only [List.map_cons, List.nodup_cons] at nd
      exact ⟨nd.2, nd.1⟩
    by_cases hp : p.1 = k
    · rw [lookupKey_cons_eq hp] at h
      have he : e = p.2 := by simpa using h.symm
      have hnone : lookupKey rest k = none := by
        apply lookupKey_eq_none_iff.mpr
        intro q hq hqk
        exact nd2.2 (List.mem_map.mpr ⟨q, hq, by rw [hqk, hp]⟩)
      rw [eraseKey_cons_eq hp, eraseKey_of_lookup_none hnone, sumSizes_cons, he]
      ring
    · rw [lookupKey_cons_ne hp] at h
      rw [eraseKey_cons_ne hp, sumSizes_cons, sumSizes_cons, ih nd2.1 h]
      ring

theorem keysNodup_eraseKey {l : List (String × CacheEntry)} {k : String}
    (nd : keysNodup l) : keysNodup (eraseKey l k) := by
  unfold keysNodup at *
  exact nd.sublist (List.Sublist.map Prod.fst (List.filter_sublist l))

theorem keysNodup_setKey {l : List (String × CacheEntry)} {k : String} {v : CacheEntry}
    (nd : keysNodup l) : keysNodup (setKey l k v) := by
  unfold keysNodup setKey
  rw [List.map_append]
  rw [List.nodup_append]
  refine ⟨keysNodup_eraseKey nd, by simp, ?_⟩
  intro a ha
  simp only [List.map_cons, List.map_nil, List.mem_singleton]
  intro hak
  obtain ⟨q, hq, hqa⟩ := List.mem_map.mp ha
  exact (mem_eraseKey hq).2 (by rw [hqa, hak])

theorem sumSizes_setKey_fresh {l : List (String × CacheEntry)} {k : String} {v : CacheEntry}
    (h : lookupKey l k = none) : sumSizes (setKey l k v) = sumSizes l + v.meta.size := by
  unfold setKey
  rw [sumSizes_append, eraseKey_of_lookup_none h, sumSizes_cons, sumSizes_nil]
  ring

end LayerCache

namespace LayerCache

theorem evictLoop_spec :
    ∀ (cand : List (String × CacheEntry)) (needed freed : Int) (c : LayerCache) (disk : Disk),
    keysNodup c.entries →
    c.totalSize = sumSizes c.entries →
    (∀ p ∈ c.entries, 0 ≤ p.2.meta.size) →
    (∀ p ∈ cand, lookupKey c.entries p.1 = some p.2) →
    (cand.map Prod.fst).Nodup →
    List.Sorted usedLE cand →
    (evictLoop cand needed freed c disk).1.maxSize = c.maxSize ∧
    keysNodup (evictLoop cand needed freed c disk).1.entries ∧
    (evictLoop cand needed freed c disk).1.totalSize
      = sumSizes (evictLoop cand needed freed c disk).1.entries ∧
    (∀ p ∈ (evictLoop cand needed freed c disk).1.entries, 0 ≤ p.2.meta.size) ∧
    (∀ p ∈ (evictLoop cand needed freed c disk).1.entries, p ∈ c.entries) ∧
    (∀ p ∈ c.entries, (∀ q ∈ cand, q.1 ≠ p.1) →
       lookupKey (evictLoop cand needed freed c disk).1.entries p.1 = some p.2) ∧
    (needed ≤ c.totalSize - (evictLoop cand needed freed c disk).1.totalSize + freed ∨
       ∀ q ∈ cand, lookupKey (evictLoop cand needed freed c disk).1.entries q.1 = none) ∧
    (∀ x ∈ cand, lookupKey (evictLoop cand needed freed c disk).1.entries x.1 = none →
       ∀ q ∈ cand, lookupKey (evictLoop cand needed freed c disk).1.entries q.1 = some q.2 →
       x.2.used ≤ q.2.used) := by
  intro cand
  induction cand with
  | nil =>
    intro needed freed c disk nd hsum hpos hagr hcnd hsort
    have hr : evictLoop [] needed freed c disk = (c, disk) := rfl
    rw [hr]
    refine ⟨rfl, nd, hsum, hpos, fun p hp => hp, fun p hp _ => mem_lookupKey nd hp, ?_, ?_⟩
    · right; intro q hq; cases hq
    · intro x hx; cases hx
  | cons x rest ih =>
    intro needed freed c disk nd hsum hpos hagr hcnd hsort
    by_cases hstop : needed ≤ freed
    · have hr : evictLoop (x :: rest) needed freed c disk = (c, disk) := by
        simp only [evictLoop, if_pos hstop]
      rw [hr]
      refine ⟨rfl, nd, hsum, hpos, fun p hp => hp, fun p hp _ => mem_lookupKey nd hp, ?_, ?_⟩
      · left
        have hfst : (c, disk).1 = c := rfl
        rw [hfst]
        omega
      · intro x' hx' hnone
        rw [hagr x' hx'] at hnone
        cases hnone
    · have hlx : lookupKey c.entries x.1 = some x.2 := hagr x (List.mem_cons_self x rest)
      have hr : evictLoop (x :: rest) needed freed c disk
          = evictLoop rest needed (freed + x.2.meta.size)
              { c with totalSize := c.totalSize - x.2.meta.size,
                       entries := eraseKey c.entries x.1 }
              (if x.2.meta.path ≠ "" then removeFile disk x.2.meta.path else disk) := by
        simp only [evictLoop, if_neg hstop, hlx]
     -- head entry facts
      have hxmem : (x.1, x.2) ∈ c.entries := lookupKey_mem hlx
      have hkeys : (rest.map Prod.fst).Nodup ∧ x.1 ∉ rest.map Prod.fst := by
        simp only [List.map_cons, List.nodup_cons] at hcnd
        exact ⟨hcnd.2, hcnd.1⟩
      have hsrt : (∀ b ∈ rest, usedLE x b) ∧ List.Sorted usedLE rest := by
        rw [List.sorted_cons] at hsort
        exact hsort
      set c1 : LayerCache :=
        { c with totalSize := c.totalSize - x.2.meta.size,
                 entries := eraseKey c.entries x.1 } with hc1
      set disk1 : Disk := (if x.2.meta.path ≠ "" then removeFile disk x.2.meta.path else disk)
        with hdisk1
      have nd1 : keysNodup c1.entries := keysNodup_eraseKey nd
      have hsum1 : c1.totalSize = sumSizes c1.entries := by
        show c.totalSize - x.2.meta.size = sumSizes (eraseKey c.entries x.1)
        rw [sumSizes_eraseKey nd hlx, hsum]
      have hpos1 : ∀ p ∈ c1.entries, 0 ≤ p.2.meta.size := by
        intro p hp
        exact hpos p (eraseKey_sub hp)
      have hagr1 : ∀ p ∈ rest, lookupKey c1.entries p.1 = some p.2 := by
        intro p hp
        have hne : p.1 ≠ x.1 := by
          intro he
          exact hkeys.2 (he ▸ List.mem_map.mpr ⟨p, hp, rfl⟩)
        show lookupKey (eraseKey c.entries x.1) p.1 = some p.2
        rw [lookupKey_eraseKey_ne hne]
        exact hagr p (List.mem_cons_of_mem x hp)
      obtain ⟨ih1, ih2, ih3, ih4, ih5, ih6, ih7, ih8⟩ :=
        ih needed (freed + x.2.meta.size) c1 disk1 nd1 hsum1 hpos1 hagr1 hkeys.1 hsrt.2
      rw [hr]
      have hxgone : lookupKey (evictLoop rest needed (freed + x.2.meta.size) c1 disk1).1.entries
          x.1 = none := by
        apply lookupKey_eq_none_iff.mpr
        intro p hp
        exact (mem_eraseKey (ih5 p hp)).2
      refine ⟨ih1, ih2, ih3, ih4, ?_, ?_, ?_, ?_⟩
      · intro p hp
        exact eraseKey_sub (ih5 p hp)
      · intro p hp hq
        have hne : x.1 ≠ p.1 := hq x (List.mem_cons_self x rest)
        exact ih6 p (mem_eraseKey_of_mem hp (fun e => hne e.symm))
          (fun q hqr => hq q (List.mem_cons_of_mem x hqr))
      · rcases ih7 with h7 | h7
        · left
          have : c1.totalSize = c.totalSize - x.2.meta.size := rfl
          omega
        · right
          intro q hq
          rcases List.mem_cons.mp hq with he | hm
          · rw [he]; exact hxgone
          · exact h7 q hm
      · intro x' hx' hnone q hq hsome
        have hqrest : q ∈ rest := by
          rcases List.mem_cons.mp hq with he | hm
          · exfalso; rw [he] at hsome; rw [hxgone] at hsome; cases hsome
          · exact hm
        rcases List.mem_cons.mp hx' with he | hm
        · rw [he]
          exact hsrt.1 q hqrest
        · exact ih8 x' hm hnone q hqrest hsome

end LayerCache

namespace LayerCache

theorem mem_sortByUsed {l : List (String × CacheEntry)} {x : String × CacheEntry} :
    x ∈ sortByUsed l ↔ x ∈ l := by
  unfold sortByUsed
  exact List.mem_insertionSort usedLE

theorem sumSizes_eq_zero {l : List (String × CacheEntry)}
    (h : ∀ p ∈ l, p.2.meta.size = 0) : sumSizes l = 0 := by
  unfold sumSizes
  apply List.sum_eq_zero
  intro x hx
  obtain ⟨p, hp, he⟩ := List.mem_map.mp hx
  rw [← he]
  exact h p hp

theorem evictLayers_spec (n : Int) (c : LayerCache) (disk : Disk)
    (nd : keysNodup c.entries)
    (hsum : c.totalSize = sumSizes c.entries)
    (hpos : ∀ p ∈ c.entries, 0 ≤ p.2.meta.size) :
    (evictLayers n c disk).1.maxSize = c.maxSize ∧
    keysNodup (evictLayers n c disk).1.entries ∧
    (evictLayers n c disk).1.totalSize = sumSizes (evictLayers n c disk).1.entries ∧
    (∀ p ∈ (evictLayers n c disk).1.entries, 0 ≤ p.2.meta.size) ∧
    (∀ p ∈ (evictLayers n c disk).1.entries, p ∈ c.entries) ∧
    (n ≤ c.totalSize - (evictLayers n c disk).1.totalSize ∨
       (evictLayers n c disk).1.totalSize = 0) ∧
    (∀ x ∈ c.entries, lookupKey (evictLayers n c disk).1.entries x.1 = none →
       ∀ q ∈ (evictLayers n c disk).1.entries, 0 < q.2.meta.size → x.2.used ≤ q.2.used) := by
  by_cases hn : n ≤ 0
  · have hr : evictLayers n c disk = (c, disk) := by
      unfold evictLayers
      rw [if_pos hn]
    rw [hr]
    refine ⟨rfl, nd, hsum, hpos, fun p hp => hp, ?_, ?_⟩
    · left
      have hfst : (c, disk).1 = c := rfl
      rw [hfst]
      omega
    · intro x hx hnone
      rw [mem_lookupKey nd hx] at hnone
      cases hnone
  · have hr : evictLayers n c disk
        = evictLoop (sortByUsed (c.entries.filter (fun p => decide (0 < p.2.meta.size)))) n 0 c
            disk := by
      unfold evictLayers
      rw [if_neg hn]
    set cand := sortByUsed (c.entries.filter (fun p => decide (0 < p.2.meta.size))) with hcand
    have hmemcand : ∀ x, x ∈ cand ↔ (x ∈ c.entries ∧ 0 < x.2.meta.size) := by
      intro x
      rw [hcand, mem_sortByUsed, List.mem_filter]
      simp
    have hagr : ∀ p ∈ cand, lookupKey c.entries p.1 = some p.2 := by
      intro p hp
      exact mem_lookupKey nd ((hmemcand p).mp hp).1
    have hcndkeys : (cand.map Prod.fst).Nodup := by
      have hperm : List.Perm cand (c.entries.filter (fun p => decide (0 < p.2.meta.size))) := by
        rw [hcand]
        unfold sortByUsed
        exact List.perm_insertionSort usedLE _
      have hperm2 := hperm.map Prod.fst
      rw [List.Perm.nodup_iff hperm2]
      exact nd.sublist (List.Sublist.map Prod.fst (List.filter_sublist c.entries))
    have hsort : List.Sorted usedLE cand := by
      rw [hcand]
      unfold sortByUsed
      exact List.sorted_insertionSort usedLE _
    obtain ⟨h1, h2, h3, h4, h5, h6, h7, h8⟩ :=
      evictLoop_spec cand n 0 c disk nd hsum hpos hagr hcndkeys hsort
    rw [hr]
    refine ⟨h1, h2, h3, h4, h5, ?_, ?_⟩
    · rcases h7 with h | h
      · left; omega
      · right
        have hz : ∀ p ∈ (evictLoop cand n 0 c disk).1.entries, p.2.meta.size = 0 := by
          intro p hp
          by_contra hnz
          have hppos : 0 < p.2.meta.size := lt_of_le_of_ne (h4 p hp) (Ne.symm hnz)
          have hpcand : p ∈ cand := (hmemcand p).mpr ⟨h5 p hp, hppos⟩
          have hcontra := h p hpcand
          rw [mem_lookupKey h2 hp] at hcontra
          cases hcontra
        rw [h3]
        exact sumSizes_eq_zero hz
    · intro x hx hnone q hq hqpos
      have hxcand : x ∈ cand := by
        rw [hmemcand]
        refine ⟨hx, ?_⟩
        by_contra hxz
        have hpres : lookupKey (evictLoop cand n 0 c disk).1.entries x.1 = some x.2 := by
          apply h6 x hx
          intro y hy hyx
          have hyc := (hmemcand y).mp hy
          have : y = x := by
            have e1 := mem_lookupKey nd hyc.1
            have e2 := mem_lookupKey nd hx
            rw [hyx] at e1
            rw [e1] at e2
            cases y; cases x
            simp_all
          rw [this] at hyc
          exact hxz hyc.2
        rw [hpres] at hnone
        cases hnone
      have hqcand : q ∈ cand := by
        rw [hmemcand]
        exact ⟨h5 q hq, hqpos⟩
      exact h8 x hxcand hnone q hqcand (mem_lookupKey h2 hq)

end LayerCache

namespace LayerCache

theorem Add_invalid {c : LayerCache} {disk : Disk} {now : Nat} {d : String} {m : LayerMetadata}
    (h : d = "" ∨ m.size < 0) : Add c disk now d m = (c, disk) := by
  unfold Add
  rw [if_pos h]

theorem Add_refused {c : LayerCache} {disk : Disk} {now : Nat} {d : String} {m : LayerMetadata}
    (h0 : ¬(d = "" ∨ m.size < 0)) (h2 : ¬c.maxSize = 0) (h3 : c.maxSize < m.size) :
    Add c disk now d m = (c, disk) := by
  unfold Add
  rw [if_neg h0, if_neg h2, if_pos h3]

theorem Add_zero_fresh {c : LayerCache} {disk : Disk} {now : Nat} {d : String} {m : LayerMetadata}
    (h0 : ¬(d = "" ∨ m.size < 0)) (h2 : c.maxSize = 0)
    (hfresh : lookupKey c.entries d = none) :
    Add c disk now d m
      = ({ c with entries := setKey c.entries d ⟨m, now⟩,
                  totalSize := c.totalSize + m.size }, disk) := by
  unfold Add
  rw [if_neg h0, if_pos h2, hfresh]

theorem Add_fresh_noevict {c : LayerCache} {disk : Disk} {now : Nat} {d : String}
    {m : LayerMetadata}
    (h0 : ¬(d = "" ∨ m.size < 0)) (h2 : ¬c.maxSize = 0) (h3 : ¬c.maxSize < m.size)
    (hfresh : lookupKey c.entries d = none) (h4 : ¬c.maxSize < c.totalSize + m.size) :
    Add c disk now d m
      = ({ c with entries := setKey c.entries d ⟨m, now⟩,
                  totalSize := c.totalSize + m.size }, disk) := by
  unfold Add
  rw [if_neg h0, if_neg h2, if_neg h3, hfresh]
  simp only [if_neg h4]

theorem Add_fresh_evict {c : LayerCache} {disk : Disk} {now : Nat} {d : String}
    {m : LayerMetadata}
    (h0 : ¬(d = "" ∨ m.size < 0)) (h2 : ¬c.maxSize = 0) (h3 : ¬c.maxSize < m.size)
    (hfresh : lookupKey c.entries d = none) (h4 : c.maxSize < c.totalSize + m.size) :
    Add c disk now d m
      = ({ (evictLayers (c.totalSize + m.size - c.maxSize) c disk).1 with
             entries := setKey (evictLayers (c.totalSize + m.size - c.maxSize) c disk).1.entries
               d ⟨m, now⟩,
             totalSize := (evictLayers (c.totalSize + m.size - c.maxSize) c disk).1.totalSize
               + m.size },
         (evictLayers (c.totalSize + m.size - c.maxSize) c disk).2) := by
  unfold Add
  rw [if_neg h0, if_neg h2, if_neg h3, hfresh]
  simp only [if_pos h4]

end LayerCache

/-- Helper: an entry of the cache list never carries the key d when the
lookup of d misses. -/
theorem mem_key_ne_of_lookup_none {l : List (String × CacheEntry)} {d : String}
    {x : String × CacheEntry} (hfresh : lookupKey l d = none) (hx : x ∈ l) : x.1 ≠ d :=
  lookupKey_eq_none_iff.mp hfresh x hx

/-- C3 (amended): for an Add whose digest is not already cached, the
running total again equals the sum of the cached sizes, stays within
max_bytes when the bound is positive, and any eviction removes entries in
ascending last-used order (among the positive-size eviction candidates). -/
theorem cacheAdd_fresh_invariant (c : LayerCache) (disk : Disk) (now : Nat) (d : String)
    (m : LayerMetadata) (hwf : LayerCache.wf c)
    (hbound : 0 < c.maxSize → c.totalSize ≤ c.maxSize)
    (hfresh : lookupKey c.entries d = none) :
    LayerCache.wf (LayerCache.Add c disk now d m).1 ∧
    (0 < c.maxSize → (LayerCache.Add c disk now d m).1.totalSize ≤ c.maxSize) ∧
    (∀ x ∈ c.entries, lookupKey (LayerCache.Add c disk now d m).1.entries x.1 = none →
       ∀ q ∈ (LayerCache.Add c disk now d m).1.entries, q.1 ≠ d → 0 < q.2.meta.size →
       x.2.used ≤ q.2.used) := by
  obtain ⟨hsum, hnd, hpos⟩ := hwf
  by_cases h0 : d = "" ∨ m.size < 0
  · rw [LayerCache.Add_invalid h0]
    refine ⟨⟨hsum, hnd, hpos⟩, hbound, ?_⟩
    intro x hx hnone
    rw [mem_lookupKey hnd hx] at hnone
    cases hnone
  · have hm0 : 0 ≤ m.size := by
      push_neg at h0
      omega
    by_cases h2 : c.maxSize = 0
    · rw [LayerCache.Add_zero_fresh h0 h2 hfresh]
      refine ⟨⟨?_, LayerCache.keysNodup_setKey hnd, ?_⟩, ?_, ?_⟩
      · exact (by rw [LayerCache.sumSizes_setKey_fresh hfresh, hsum] :
          c.totalSize + m.size = LayerCache.sumSizes (setKey c.entries d ⟨m, now⟩))
      · intro p hp
        rcases mem_setKey.mp hp with h | h
        · exact hpos p (eraseKey_sub h)
        · rw [h]
          exact hm0
      · intro hcontra
        rw [h2] at hcontra
        exact absurd hcontra (lt_irrefl 0)
      · intro x hx hnone
        have hxd : x.1 ≠ d := mem_key_ne_of_lookup_none hfresh hx
        rw [lookupKey_setKey_ne hxd, mem_lookupKey hnd hx] at hnone
        cases hnone
    · by_cases h3 : c.maxSize < m.size
      · rw [LayerCache.Add_refused h0 h2 h3]
        refine ⟨⟨hsum, hnd, hpos⟩, hbound, ?_⟩
        intro x hx hnone
        rw [mem_lookupKey hnd hx] at hnone
        cases hnone
      · by_cases h4 : c.maxSize < c.totalSize + m.size
        · rw [LayerCache.Add_fresh_evict h0 h2 h3 hfresh h4]
          obtain ⟨e1, e2, e3, e4, e5, e6, e7⟩ :=
            LayerCache.evictLayers_spec (c.totalSize + m.size - c.maxSize) c disk hnd hsum hpos
          set r1 := (LayerCache.evictLayers (c.totalSize + m.size - c.maxSize) c disk).1 with hr1
          have hfresh1 : lookupKey r1.entries d = none := by
            apply lookupKey_eq_none_iff.mpr
            intro p hp
            exact mem_key_ne_of_lookup_none hfresh (e5 p hp)
          refine ⟨⟨?_, LayerCache.keysNodup_setKey e2, ?_⟩, ?_, ?_⟩
          · exact (by rw [LayerCache.sumSizes_setKey_fresh hfresh1, e3] :
              r1.totalSize + m.size = LayerCache.sumSizes (setKey r1.entries d ⟨m, now⟩))
          · intro p hp
            rcases mem_setKey.mp hp with h | h
            · exact e4 p (eraseKey_sub h)
            · rw [h]
              exact hm0
          · intro hmax
            show r1.totalSize + m.size ≤ c.maxSize
            rcases e6 with h | h
            · omega
            · omega
          · intro x hx hnone q hq hqd hqpos
            have hxd : x.1 ≠ d := mem_key_ne_of_lookup_none hfresh hx
            rw [lookupKey_setKey_ne hxd] at hnone
            have hqr : q ∈ r1.entries := by
              rcases mem_setKey.mp hq with h | h
              · exact eraseKey_sub h
              · exfalso
                apply hqd
                rw [h]
            exact e7 x hx hnone q hqr hqpos
        · rw [LayerCache.Add_fresh_noevict h0 h2 h3 hfresh h4]
          refine ⟨⟨?_, LayerCache.keysNodup_setKey hnd, ?_⟩, ?_, ?_⟩
          · exact (by rw [LayerCache.sumSizes_setKey_fresh hfresh, hsum] :
              c.totalSize + m.size = LayerCache.sumSizes (setKey c.entries d ⟨m, now⟩))
          · intro p hp
            rcases mem_setKey.mp hp with h | h
            · exact hpos p (eraseKey_sub h)
            · rw [h]
              exact hm0
          · intro _
            show c.totalSize + m.size ≤ c.maxSize
            omega
          · intro x hx hnone
            have hxd : x.1 ≠ d := mem_key_ne_of_lookup_none hfresh hx
            rw [lookupKey_setKey_ne hxd, mem_lookupKey hnd hx] at hnone
            cases hnone

def c3cexCache : LayerCache :=
  ⟨[("sha256:aa", ⟨⟨"sha256:aa", "/var/lib/image-service/a1/layer-0/layer.tar", 60⟩, 0⟩),
    ("sha256:bb", ⟨⟨"sha256:bb", "/var/lib/image-service/b1/layer-0/layer.tar", 30⟩, 1⟩)],
   100, 90⟩

def c3cexMeta : LayerMetadata := ⟨"sha256:aa", "/var/lib/image-service/a2/layer-0/layer.tar", 90⟩

/-- C3: the claim fails on the code.  Starting from a well-formed cache
within its bound, re-adding an already cached digest with a larger size
triggers an eviction pass that still contains the old entry for that
digest; its size is subtracted a second time, and after the add
total_bytes (60) no longer equals the sum of the cached sizes (120). -/
theorem cacheAdd_total_counterexample :
    LayerCache.wf c3cexCache ∧
    c3cexCache.totalSize ≤ c3cexCache.maxSize ∧
    (LayerCache.Add c3cexCache [] 2 "sha256:aa" c3cexMeta).1.totalSize = 60 ∧
    LayerCache.sumSizes (LayerCache.Add c3cexCache [] 2 "sha256:aa" c3cexMeta).1.entries = 120 ∧
    (LayerCache.Add c3cexCache [] 2 "sha256:aa" c3cexMeta).1.totalSize ≠
      LayerCache.sumSizes (LayerCache.Add c3cexCache [] 2 "sha256:aa" c3cexMeta).1.entries := by
  decide

def c3wCache : LayerCache :=
  ⟨[("sha256:l1", ⟨⟨"sha256:l1", "/var/lib/image-service/i1/layer-0/layer.tar", 40⟩, 2⟩),
    ("sha256:l2", ⟨⟨"sha256:l2", "/var/lib/image-service/i1/layer-1/layer.tar", 30⟩, 1⟩)],
   100, 70⟩

def c3wMeta : LayerMetadata := ⟨"sha256:l3", "/var/lib/image-service/i2/layer-0/layer.tar", 50⟩

theorem cacheAdd_fresh_invariant_witness :
    LayerCache.wf c3wCache ∧
    (0 < c3wCache.maxSize → c3wCache.totalSize ≤ c3wCache.maxSize) ∧
    lookupKey c3wCache.entries "sha256:l3" = none ∧
    (LayerCache.wf (LayerCache.Add c3wCache [] 3 "sha256:l3" c3wMeta).1 ∧
     (0 < c3wCache.maxSize →
        (LayerCache.Add c3wCache [] 3 "sha256:l3" c3wMeta).1.totalSize ≤ c3wCache.maxSize) ∧
     (∀ x ∈ c3wCache.entries,
        lookupKey (LayerCache.Add c3wCache [] 3 "sha256:l3" c3wMeta).1.entries x.1 = none →
        ∀ q ∈ (LayerCache.Add c3wCache [] 3 "sha256:l3" c3wMeta).1.entries,
          q.1 ≠ "sha256:l3" → 0 < q.2.meta.size → x.2.used ≤ q.2.used)) :=
  ⟨by decide, by decide, by decide,
   cacheAdd_fresh_invariant c3wCache [] 3 "sha256:l3" c3wMeta (by decide) (by decide) (by decide)⟩

/-- C6: an Add of a layer whose size alone exceeds a positive max_bytes is
refused outright: no entry is inserted, no eviction runs, and both the
cache and the filesystem are returned unchanged. -/
theorem cacheAdd_oversize_refused (c : LayerCache) (disk : Disk) (now : Nat) (d : String)
    (m : LayerMetadata) (h1 : 0 < c.maxSize) (h2 : c.maxSize < m.size) :
    LayerCache.Add c disk now d m = (c, disk) := by
  by_cases h0 : d = "" ∨ m.size < 0
  · exact LayerCache.Add_invalid h0
  · exact LayerCache.Add_refused h0 (by omega) h2

def c6wCache : LayerCache :=
  ⟨[("sha256:s1", ⟨⟨"sha256:s1", "/var/lib/image-service/w1/layer-0/layer.tar", 5⟩, 0⟩)], 10, 5⟩

def c6wMeta : LayerMetadata := ⟨"sha256:big", "/var/lib/image-service/w2/layer-0/layer.tar", 11⟩

theorem cacheAdd_oversize_refused_witness :
    0 < c6wCache.maxSize ∧ c6wCache.maxSize < c6wMeta.size ∧
    LayerCache.Add c6wCache [("/var/lib/image-service/w1/layer-0/layer.tar", [1, 2, 3, 4, 5])] 7
        "sha256:big" c6wMeta
      = (c6wCache, [("/var/lib/image-service/w1/layer-0/layer.tar", [1, 2, 3, 4, 5])]) :=
  ⟨by decide, by decide,
   cacheAdd_oversize_refused c6wCache
     [("/var/lib/image-service/w1/layer-0/layer.tar", [1, 2, 3, 4, 5])] 7 "sha256:big" c6wMeta
     (by decide) (by decide)⟩

/-! ## Service model (pkg/service/image_service.go + image_operations.go + gc.go)

Network responses, metadata-write failures and unlink failures come from
an explicit environment.  Contexts carry no deadline in the claims under
study, so the ctx argument is dropped.  reference.ParseNormalizedNamed is
not modeled: the embedded operations cover the syntactically valid
references (an invalid reference makes pullImage fail before any state
change, and can never be a catalog key). -/

deriving instance DecidableEq for Except

/-- imageMetadata of image_service.go; the pullImage literal omits Layers,
whose Go zero value is nil, modeled as the empty list. -/
structure imageMetadata where
  ID : String
  RepoTags : List String
  RepoDigests : List String
  Size : Int
  Layers : List LayerMetadata := []
deriving Repr, DecidableEq

/-- Layer descriptor of DockerManifest (mediaType, size, digest). -/
structure Descriptor where
  mediaType : String
  size : Int
  digest : String
deriving Repr, DecidableEq

/-- DockerManifest: only schemaVersion, mediaType, config and layers are
decoded by the service. -/
structure DockerManifest where
  schemaVersion : Int
  mediaType : String
  config : Descriptor
  layers : List Descriptor
deriving Repr, DecidableEq

/-- runtime.AuthConfig as consumed by the service (username, password). -/
structure AuthConfig where
  username : String
  password : String
deriving Repr, DecidableEq

/-- Environment: the registry and the fallible filesystem operations.
blob maps a layer digest to the body served for its blob URL (none for a
transport error or non-200 status).  saveFails says whether the n-th
saveMetadata call fails.  reuseFails makes both the hardlink and the
copy of reuseLayer fail for a destination path.  rmFails makes os.Remove
fail (with a non-NotFound error) for a path. -/
structure Env where
  probeStatus : Nat
  manifest : Option DockerManifest
  blob : String → Option (List Nat)
  saveFails : Nat → Bool
  reuseFails : String → Bool
  rmFails : String → Bool

/-- ImageService state: catalog, backing store content of metadata.json,
filesystem, layer cache, a clock for time.Now(), and the count of
saveMetadata calls (indexing the failure oracle). -/
structure ServiceState where
  imageRoot : String
  images : List (String × imageMetadata)
  metadataFile : Option (List (String × imageMetadata))
  disk : Disk
  cache : LayerCache
  clock : Nat
  saveCalls : Nat
deriving Repr, DecidableEq

inductive RegCheckResult
  | ok
  | authRequired
  | authFailed (status : Nat)
  | checkFailed (status : Nat)
deriving Repr, DecidableEq

/-- checkRegistry of image_operations.go: 200 and 401 fall through, but a
401 with a nil auth config is reported as authentication required; 403 is
authentication failed; anything else is a registry check failure. -/
def checkRegistry (status : Nat) (auth : Option AuthConfig) : RegCheckResult :=
  if status = 200 ∨ status = 401 then
    if auth = none ∧ status = 401 then .authRequired else .ok
  else if status = 403 then .authFailed status
  else .checkFailed status

inductive PullErr
  | authRequired
  | authFailed (status : Nat)
  | registryCheckFailed (status : Nat)
  | manifestFailed
  | layerFailed (index : Nat)
  | saveFailed
deriving Repr, DecidableEq

/-- saveMetadata: marshal the catalog and atomically rename the temp file
over metadata.json; on failure the previous snapshot survives. -/
def saveMetadata (st : ServiceState) (e : Env) : Except Unit Unit × ServiceState :=
  if e.saveFails st.saveCalls then
    (.error (), { st with saveCalls := st.saveCalls + 1 })
  else
    (.ok (), { st with saveCalls := st.saveCalls + 1, metadataFile := some st.images })

/-- saveLayer: stream the body to layer.tar.tmp while hashing; on digest
mismatch unlink the temp (no net state change), else rename to layer.tar. -/
def saveLayer (st : ServiceState) (destDir : String) (body : List Nat)
    (expectedDigest : String) : Except Unit ServiceState :=
  let layerPath := destDir ++ "/layer.tar"
  let actualDigest := sha256DigestStr body
  if actualDigest ≠ expectedDigest then .error ()
  else .ok { st with disk := setFile st.disk layerPath body }

/-- downloadLayer: GET the blob and saveLayer it. -/
def downloadLayer (st : ServiceState) (e : Env) (destDir : String) (expectedDigest : String) :
    Except Unit ServiceState :=
  match e.blob expectedDigest with
  | none => .error ()
  | some body => saveLayer st destDir body expectedDigest

/-- Layer loop of downloadImage.  For each descriptor, in manifest order:
on a cache hit whose file still exists, reuse it (on reuse failure drop
the cache entry and fall through to the download, the Go goto); otherwise
download into layer-i, stat the installed file, record and cache it.  A
reused layer adds the cached Size to the total and appends the cached
record (whose path is the cached, not the new, location); a downloaded
layer adds the manifest-declared size to the total but records the
stat-ed on-disk size. -/
def downloadLayers (e : Env) (imageDir : String) :
    List Descriptor → Nat → List LayerMetadata → Int → ServiceState →
    Except PullErr (List LayerMetadata × Int) × ServiceState
  | [], _, layers, total, st => (.ok (layers, total), st)
  | layer :: rest, i, layers, total, st =>
    let layerDir := imageDir ++ "/layer-" ++ toString i
    let layerPath := layerDir ++ "/layer.tar"
    let got := LayerCache.Get st.cache st.clock layer.digest
    let st0 := { st with cache := got.2, clock := st.clock + 1 }
    let attempt : (LayerMetadata × List Nat) ⊕ ServiceState :=
      match got.1 with
      | none => .inr st0
      | some metadata =>
        match lookupKey st0.disk metadata.path with
        | none => .inr st0
        | some body =>
          if e.reuseFails layerPath then
            .inr { st0 with cache := LayerCache.Remove st0.cache layer.digest }
          else .inl (metadata, body)
    match attempt with
    | .inl (metadata, body) =>
      let st1 := { st0 with disk := setFile st0.disk layerPath body }
      downloadLayers e imageDir rest (i + 1) (layers ++ [metadata]) (total + metadata.size) st1
    | .inr st1 =>
      match downloadLayer st1 e layerDir layer.digest with
      | .error _ => (.error (.layerFailed i), st1)
      | .ok st2 =>
        match lookupKey st2.disk layerPath with
        | none => (.error (.layerFailed i), st2)
        | some body2 =>
          let metadata : LayerMetadata := ⟨layer.digest, layerPath, (body2.length : Int)⟩
          let ad := LayerCache.Add st2.cache st2.disk st2.clock layer.digest metadata
          let st3 := { st2 with cache := ad.1, disk := ad.2, clock := st2.clock + 1 }
          downloadLayers e imageDir rest (i + 1) (layers ++ [metadata]) (total + layer.size) st3

/-- downloadImage: fetch the manifest, derive the image directory from the
reference digest, run the layer loop, insert the record (with layers),
and persist.  The returned digest is the reference digest. -/
def downloadImage (st : ServiceState) (e : Env) (imageRef : String) :
    Except PullErr (String × Int) × ServiceState :=
  match e.manifest with
  | none => (.error .manifestFailed, st)
  | some manifest =>
    let dgstHex := sha256Hex imageRef
    let imageID := "sha256:" ++ hexAscii dgstHex
    let imageDir := st.imageRoot ++ "/" ++ dgstHex
    match downloadLayers e imageDir manifest.layers 0 [] 0 st with
    | (.error err, st1) => (.error err, st1)
    | (.ok (layers, totalSize), st1) =>
      let rec1 : imageMetadata :=
        { ID := imageID, RepoTags := [imageRef],
          RepoDigests := [imageRef ++ "@sha256:" ++ dgstHex],
          Size := totalSize, Layers := layers }
      let st2 := { st1 with images := setKey st1.images imageRef rec1 }
      match saveMetadata st2 e with
      | (.error _, st3) => (.error .saveFailed, st3)
      | (.ok _, st3) => (.ok (dgstHex, totalSize), st3)

/-- pullImage: return the stored ID at once if the reference is cataloged;
else probe the registry, download, store a second record without layers,
and persist.  On a failed save the error is returned with the record
still in the catalog. -/
def pullImage (st : ServiceState) (e : Env) (imageRef : String) (auth : Option AuthConfig) :
    Except PullErr String × ServiceState :=
  match lookupKey st.images imageRef with
  | some img => (.ok img.ID, st)
  | none =>
    match checkRegistry e.probeStatus auth with
    | .ok =>
      match downloadImage st e imageRef with
      | (.error err, st1) => (.error err, st1)
      | (.ok (dgstHex, totalSize), st1) =>
        let imageID := "sha256:" ++ hexAscii dgstHex
        let rec2 : imageMetadata :=
          { ID := imageID, RepoTags := [imageRef],
            RepoDigests := [imageRef ++ "@sha256:" ++ dgstHex],
            Size := totalSize }
        let st2 := { st1 with images := setKey st1.images imageRef rec2 }
        match saveMetadata st2 e with
        | (.error _, st3) => (.error .saveFailed, st3)
        | (.ok _, st3) => (.ok imageID, st3)
    | .authRequired => (.error .authRequired, st)
    | .authFailed s => (.error (.authFailed s), st)
    | .checkFailed s => (.error (.registryCheckFailed s), st)

inductive RmErr
  | notFound
  | removeDirFailed
  | saveFailed
deriving Repr, DecidableEq

/-- Per-layer cleanup step of removeImage: a layer whose digest no other
record uses is dropped from the cache and its file unlinked (a NotFound
is ignored; any other unlink error is logged and skipped, so the file
stays when the oracle makes os.Remove fail). -/
def removeLayerStep (e : Env) (layersInUse : List String) (acc : LayerCache × Disk)
    (layer : LayerMetadata) : LayerCache × Disk :=
  if layer.digest ∈ layersInUse then acc
  else
    let c1 := LayerCache.Remove acc.1 layer.digest
    let d1 := if layer.path ≠ "" ∧ ¬e.rmFails layer.path = true
              then removeFile acc.2 layer.path else acc.2
    (c1, d1)

/-- removeImage: look up the reference; collect the layer digests used by
the other records; for each layer of the target not in that set, drop it
from the cache and unlink its file (NotFound ignored, other unlink errors
logged and skipped); recursively remove the image directory; delete the
record and persist. -/
def removeImage (st : ServiceState) (e : Env) (imageRef : String) :
    Except RmErr Unit × ServiceState :=
  match lookupKey st.images imageRef with
  | none => (.error .notFound, st)
  | some img =>
    let imageDir := st.imageRoot ++ "/" ++ sha256Hex imageRef
    let layersInUse :=
      (st.images.filter (fun p => p.1 != imageRef)).flatMap
        (fun p => p.2.Layers.map (fun layer => layer.digest))
    let cleaned := img.Layers.foldl (removeLayerStep e layersInUse) (st.cache, st.disk)
    if e.rmFails imageDir then
      (.error .removeDirFailed, { st with cache := cleaned.1, disk := cleaned.2 })
    else
      let disk2 := cleaned.2.filter
        (fun f => ¬(strIsPrefixOf (imageDir ++ "/") f.1 = true ∨ f.1 = imageDir))
      let st1 := { st with cache := cleaned.1, disk := disk2,
                           images := eraseKey st.images imageRef }
      match saveMetadata st1 e with
      | (.error _, st2) => (.error .saveFailed, st2)
      | (.ok _, st2) => (.ok (), st2)

/-- GCStats of gc.go. -/
structure GCStats where
  lastRun : Nat
  totalCollections : Int
  totalLayersRemoved : Int
  lastCollectionSize : Int
deriving Repr, DecidableEq

/-- Per-file loop of collectGarbage: skip referenced files; stat the
orphan and account its size, then unlink it; a failed unlink is logged
and skipped (but its size stays counted). -/
def gcLoop (e : Env) (referenced : List String) :
    List (String × List Nat) → Disk → Int → Int → Disk × Int × Int
  | [], disk, removed, total => (disk, removed, total)
  | f :: rest, disk, removed, total =>
    if f.1 ∈ referenced then gcLoop e referenced rest disk removed total
    else
      let total1 := total + (f.2.length : Int)
      if e.rmFails f.1 then gcLoop e referenced rest disk removed total1
      else gcLoop e referenced rest (removeFile disk f.1) (removed + 1) total1

/-- collectGarbage of gc.go: walk the image root for files named
layer.tar, collect the layer paths referenced by the catalog, remove the
unreferenced files, update the statistics.  The catalog itself is never
touched. -/
def gcLayerFiles (st : ServiceState) : List (String × List Nat) :=
  st.disk.filter (fun f => strIsPrefixOf (st.imageRoot ++ "/") f.1 && baseName f.1 == "layer.tar")

/-- Layer paths referenced by the catalog, the union over every record. -/
def gcReferenced (st : ServiceState) : List String :=
  st.images.flatMap (fun p => p.2.Layers.map (fun layer => layer.path))

/-- The walked files that no record references (the orphans). -/
def gcOrphans (st : ServiceState) : List (String × List Nat) :=
  (gcLayerFiles st).filter (fun f => decide (f.1 ∉ gcReferenced st))

def collectGarbage (st : ServiceState) (e : Env) (stats : GCStats) (now : Nat) :
    ServiceState × GCStats :=
  let res := gcLoop e (gcReferenced st) (gcLayerFiles st) st.disk 0 0
  ({ st with disk := res.1 },
   { lastRun := now,
     totalCollections := stats.totalCollections + 1,
     totalLayersRemoved := stats.totalLayersRemoved + res.2.1,
     lastCollectionSize := res.2.2 })

/-! ## Pipeline lemmas -/

theorem pullImage_cached {st : ServiceState} {e : Env} {ref : String} {auth : Option AuthConfig}
    {img : imageMetadata} (h : lookupKey st.images ref = some img) :
    pullImage st e ref auth = (.ok img.ID, st) := by
  unfold pullImage
  rw [h]

theorem saveMetadata_ok {st : ServiceState} {e : Env} (h : e.saveFails st.saveCalls = false) :
    saveMetadata st e
      = (.ok (), { st with saveCalls := st.saveCalls + 1, metadataFile := some st.images }) := by
  unfold saveMetadata
  rw [if_neg]
  simp [h]

theorem saveMetadata_err {st : ServiceState} {e : Env} (h : e.saveFails st.saveCalls = true) :
    saveMetadata st e = (.error (), { st with saveCalls := st.saveCalls + 1 }) := by
  unfold saveMetadata
  rw [if_pos]
  exact h

theorem downloadLayers_error_kind {e : Env} {imageDir : String} :
    ∀ {descs : List Descriptor} {i : Nat} {layers : List LayerMetadata} {total : Int}
      {st : ServiceState} {err : PullErr} {st1 : ServiceState},
    downloadLayers e imageDir descs i layers total st = (.error err, st1) →
    ∃ j, err = .layerFailed j := by
  intro descs
  induction descs with
  | nil =>
    intro i layers total st err st1 h
    unfold downloadLayers at h
    cases h
  | cons layer rest ih =>
    intro i layers total st err st1 h
    simp only [downloadLayers] at h
    repeat' split at h
    all_goals
      first
      | exact ih h
      | (simp only [Prod.mk.injEq] at h
         obtain ⟨h1, -⟩ := h
         injection h1 with h2
         exact ⟨i, h2.symm⟩)

theorem saveMetadata_ok_inv {st : ServiceState} {e : Env} {u : Unit} {st3 : ServiceState}
    (h : saveMetadata st e = (.ok u, st3)) :
    st3 = { st with saveCalls := st.saveCalls + 1, metadataFile := some st.images } := by
  unfold saveMetadata at h
  split at h
  · simp only [Prod.mk.injEq] at h
    cases h.1
  · simp only [Prod.mk.injEq] at h
    exact h.2.symm

theorem saveMetadata_err_inv {st : ServiceState} {e : Env} {u : Unit} {st3 : ServiceState}
    (h : saveMetadata st e = (.error u, st3)) :
    st3 = { st with saveCalls := st.saveCalls + 1 } ∧ e.saveFails st.saveCalls = true := by
  unfold saveMetadata at h
  split at h
  · simp only [Prod.mk.injEq] at h
    next hc => exact ⟨h.2.symm, hc⟩
  · simp only [Prod.mk.injEq] at h
    cases h.1

theorem downloadImage_ok_spec {st : ServiceState} {e : Env} {ref : String} {d : String} {t : Int}
    {st1 : ServiceState} (h : downloadImage st e ref = (.ok (d, t), st1)) :
    d = sha256Hex ref ∧
    st1.metadataFile = some st1.images ∧
    ∃ recMid, lookupKey st1.images ref = some recMid ∧
      recMid.ID = "sha256:" ++ hexAscii (sha256Hex ref) ∧
      recMid.Size = t ∧ recMid.RepoTags = [ref] ∧
      recMid.RepoDigests = [ref ++ "@sha256:" ++ sha256Hex ref] ∧
      ∃ manifest stL, e.manifest = some manifest ∧
        downloadLayers e (st.imageRoot ++ "/" ++ sha256Hex ref) manifest.layers 0 [] 0 st
          = (.ok (recMid.Layers, t), stL) ∧
        st1.images = setKey stL.images ref recMid ∧
        st1.disk = stL.disk ∧ st1.cache = stL.cache := by
  unfold downloadImage at h
  split at h
  · cases h
  next manifest hman =>
    simp only [] at h
    split at h
    next err stE heq => cases h
    next layers totalSize stL heq =>
      split at h
      next u st3 hsv => cases h
      next u st3 hsv =>
        simp only [Prod.mk.injEq, Except.ok.injEq] at h
        obtain ⟨⟨hd, ht⟩, hst⟩ := h
        have h3 := saveMetadata_ok_inv hsv
        subst hd ht hst h3
        refine ⟨rfl, rfl, _, lookupKey_setKey_self, rfl, rfl, rfl, rfl, manifest, stL, hman,
          heq, rfl, rfl, rfl⟩

theorem pullImage_fresh_ok {st : ServiceState} {e : Env} {ref : String} {auth : Option AuthConfig}
    {id : String} {st1 : ServiceState}
    (hfresh : lookupKey st.images ref = none)
    (h : pullImage st e ref auth = (.ok id, st1)) :
    id = "sha256:" ++ hexAscii (sha256Hex ref) ∧
    ∃ totalSize stMid,
      downloadImage st e ref = (.ok (sha256Hex ref, totalSize), stMid) ∧
      st1.images = setKey stMid.images ref
        ({ ID := id, RepoTags := [ref], RepoDigests := [ref ++ "@sha256:" ++ sha256Hex ref],
           Size := totalSize }) ∧
      lookupKey st1.images ref
        = some ({ ID := id, RepoTags := [ref],
                  RepoDigests := [ref ++ "@sha256:" ++ sha256Hex ref], Size := totalSize }) ∧
      st1.metadataFile = some st1.images ∧
      st1.disk = stMid.disk ∧ st1.cache = stMid.cache := by
  unfold pullImage at h
  split at h
  next img heq => rw [heq] at hfresh; cases hfresh
  next hnone =>
    split at h
    · split at h
      next err stE heq => cases h
      next dgstHex totalSize stMid heqD =>
        simp only [] at h
        split at h
        next u st3 hsv => cases h
        next u st3 hsv =>
          simp only [Prod.mk.injEq, Except.ok.injEq] at h
          obtain ⟨hid, hst⟩ := h
          have hd : dgstHex = sha256Hex ref := (downloadImage_ok_spec heqD).1
          have h3 := saveMetadata_ok_inv hsv
          subst hd hid hst h3
          exact ⟨rfl, totalSize, stMid, heqD, rfl, lookupKey_setKey_self, rfl, rfl, rfl⟩
    · cases h
    · cases h
    · cases h

/-! ## Registry probe result mapping (claim C8) -/

/-- C8: the claim is false on the code.  A 401 from the /v2/ probe with
credentials supplied does not fail with authentication-failed: it is
treated as success and the pull proceeds. -/
theorem checkRegistry_401_with_creds_counterexample :
    checkRegistry 401 (some ⟨"user", "pass"⟩) = .ok ∧
    checkRegistry 401 (some ⟨"user", "pass"⟩) ≠ .authFailed 401 := by
  decide

/-- C8 (amended): the /v2/ probe maps statuses as follows: a 401 with
credentials supplied is treated as a success without the credentials
ever being validated against the registry, a 401 with none fails
authentication-required, 403 fails authentication-failed, 200 is a
success, and every other status is a registry-check failure. -/
theorem checkRegistry_status_mapping (s : Nat) (a : AuthConfig) (auth : Option AuthConfig)
    (h200 : s ≠ 200) (h401 : s ≠ 401) (h403 : s ≠ 403) :
    checkRegistry 401 (some a) = .ok ∧
    checkRegistry 401 none = .authRequired ∧
    checkRegistry 403 auth = .authFailed 403 ∧
    checkRegistry 200 auth = .ok ∧
    checkRegistry s auth = .checkFailed s := by
  refine ⟨?_, by decide, ?_, ?_, ?_⟩
  · simp [checkRegistry]
  · simp [checkRegistry]
  · unfold checkRegistry
    rw [if_pos (Or.inl rfl)]
    split
    next hc => cases hc.2
    · rfl
  · have hcond : ¬(s = 200 ∨ s = 401) := by
      rintro (hc | hc)
      · exact h200 hc
      · exact h401 hc
    unfold checkRegistry
    rw [if_neg hcond, if_neg h403]

theorem checkRegistry_status_mapping_witness :
    ((503 : Nat) ≠ 200 ∧ (503 : Nat) ≠ 401 ∧ (503 : Nat) ≠ 403) ∧
    (checkRegistry 401 (some ⟨"user", "pass"⟩) = .ok ∧
     checkRegistry 401 none = .authRequired ∧
     checkRegistry 403 none = .authFailed 403 ∧
     checkRegistry 200 none = .ok ∧
     checkRegistry 503 none = .checkFailed 503) :=
  ⟨⟨by decide, by decide, by decide⟩,
   checkRegistry_status_mapping 503 ⟨"user", "pass"⟩ none
     (by decide) (by decide) (by decide)⟩

/-! ## Image-ID derivation (claim C1) -/

def c1Ref : String := "registry.example/lib/app:latest"

def c1Env : Env :=
  { probeStatus := 200,
    manifest := some
      { schemaVersion := 2,
        mediaType := "application/vnd.docker.distribution.manifest.v2+json",
        config := ⟨"application/vnd.docker.container.image.v1+json", 1000, "sha256:cfgdigest"⟩,
        layers := [] },
    blob := fun _ => none,
    saveFails := fun _ => false,
    reuseFails := fun _ => false,
    rmFails := fun _ => false }

def c1St : ServiceState :=
  { imageRoot := "/var/lib/image-service", images := [], metadataFile := none, disk := [],
    cache := NewLayerCache 10737418240, clock := 0, saveCalls := 0 }

/-- ID as the code computes it: fmt.Sprintf("sha256:%x", dgst.Hex())
hex-encodes the ASCII bytes of the already-hex digest. -/
def c1CodeID : String := "sha256:" ++ hexAscii (sha256Hex c1Ref)

def c1Rec : imageMetadata :=
  { ID := c1CodeID, RepoTags := [c1Ref],
    RepoDigests := [c1Ref ++ "@sha256:" ++ sha256Hex c1Ref], Size := 0 }

/-- C1: the claim is false on the code.  A successful pull of the spec
scenario reference returns and stores an ID that hex-encodes the digest
hex string a second time (128 hex digits), not
"sha256:" ++ hex(sha256(reference)). -/
theorem pullImage_id_counterexample :
    (pullImage c1St c1Env c1Ref none).1 = .ok c1CodeID ∧
    lookupKey (pullImage c1St c1Env c1Ref none).2.images c1Ref = some c1Rec ∧
    c1CodeID ≠ "sha256:" ++ sha256Hex c1Ref := by
  refine ⟨by decide, by decide, by decide⟩

/-- C1 (amended): the image ID returned by a successful fresh pull, and
stored in the record, is "sha256:" followed by the hex encoding of the
ASCII bytes of the lowercase-hex SHA-256 reference digest (a double hex
encoding), not the digest hex itself. -/
theorem pullImage_id_double_hex (st : ServiceState) (e : Env) (ref : String)
    (auth : Option AuthConfig) (id : String) (st1 : ServiceState)
    (hfresh : lookupKey st.images ref = none)
    (h : pullImage st e ref auth = (.ok id, st1)) :
    id = "sha256:" ++ hexAscii (sha256Hex ref) ∧
    ∃ rec, lookupKey st1.images ref = some rec ∧ rec.ID = id := by
  obtain ⟨hid, t, stMid, _, _, hlook, _, _, _⟩ := pullImage_fresh_ok hfresh h
  exact ⟨hid, _, hlook, rfl⟩

theorem pullImage_id_double_hex_witness :
    lookupKey c1St.images c1Ref = none ∧
    pullImage c1St c1Env c1Ref none = (.ok c1CodeID, (pullImage c1St c1Env c1Ref none).2) ∧
    (c1CodeID = "sha256:" ++ hexAscii (sha256Hex c1Ref) ∧
     ∃ rec, lookupKey (pullImage c1St c1Env c1Ref none).2.images c1Ref = some rec ∧
       rec.ID = c1CodeID) :=
  ⟨by decide, by decide,
   pullImage_id_double_hex c1St c1Env c1Ref none c1CodeID (pullImage c1St c1Env c1Ref none).2
     (by decide) (by decide)⟩

/-! ## Idempotent pull (claim C5) -/

/-- C5: a reference already in the catalog is answered from the catalog:
the stored ID is returned with the state unchanged and no registry
interaction (the result does not depend on the environment), and a pull
immediately following a successful pull of the same reference returns
the same ID and leaves the state unchanged. -/
theorem pullImage_idempotent :
    (∀ (st : ServiceState) (e : Env) (ref : String) (auth : Option AuthConfig)
       (img : imageMetadata), lookupKey st.images ref = some img →
       pullImage st e ref auth = (.ok img.ID, st)) ∧
    (∀ (st st1 : ServiceState) (e e2 : Env) (ref : String) (auth auth2 : Option AuthConfig)
       (id : String), pullImage st e ref auth = (.ok id, st1) →
       pullImage st1 e2 ref auth2 = (.ok id, st1)) := by
  constructor
  · intro st e ref auth img h
    exact pullImage_cached h
  · intro st st1 e e2 ref auth auth2 id h
    cases hl : lookupKey st.images ref with
    | some img =>
      rw [pullImage_cached hl] at h
      simp only [Prod.mk.injEq, Except.ok.injEq] at h
      obtain ⟨hid, hst⟩ := h
      subst hid hst
      exact pullImage_cached hl
    | none =>
      obtain ⟨hid, t, stMid, _, _, hlook, _, _, _⟩ := pullImage_fresh_ok hl h
      exact pullImage_cached hlook

def c5Img : imageMetadata :=
  { ID := "sha256:616263", RepoTags := ["r.io/app:latest"], RepoDigests := [], Size := 3 }

def c5St : ServiceState :=
  { imageRoot := "/var/lib/image-service",
    images := [("r.io/app:latest", c5Img)],
    metadataFile := some [("r.io/app:latest", c5Img)],
    disk := [("/var/lib/image-service/d1/layer-0/layer.tar", [1, 2, 3])],
    cache := NewLayerCache 100, clock := 0, saveCalls := 0 }

/-- Environment whose registry is unreachable: a cached pull that touched
the network could not succeed against it. -/
def c5Env : Env :=
  { probeStatus := 503, manifest := none, blob := fun _ => none,
    saveFails := fun _ => true, reuseFails := fun _ => true, rmFails := fun _ => true }

theorem pullImage_idempotent_witness :
    lookupKey c5St.images "r.io/app:latest" = some c5Img ∧
    pullImage c5St c5Env "r.io/app:latest" none = (.ok c5Img.ID, c5St) ∧
    pullImage c5St c5Env "r.io/app:latest" none = (.ok c5Img.ID, c5St) ∧
    pullImage c5St c5Env "r.io/app:latest" (some ⟨"u", "p"⟩) = (.ok c5Img.ID, c5St) :=
  ⟨by decide,
   pullImage_idempotent.1 c5St c5Env "r.io/app:latest" none c5Img (by decide),
   pullImage_idempotent.2 c5St c5St c5Env c5Env "r.io/app:latest" none none c5Img.ID
     (pullImage_idempotent.1 c5St c5Env "r.io/app:latest" none c5Img (by decide)),
   pullImage_idempotent.2 c5St c5St c5Env c5Env "r.io/app:latest" none (some ⟨"u", "p"⟩)
     c5Img.ID
     (pullImage_idempotent.1 c5St c5Env "r.io/app:latest" none c5Img (by decide))⟩

/-! ## Metadata-write failure during pull (claim C7) -/

theorem downloadImage_saveFailed_keeps {st : ServiceState} {e : Env} {ref : String}
    {stE : ServiceState} (h : downloadImage st e ref = (.error .saveFailed, stE)) :
    ∃ manifest layers total stL rec,
      e.manifest = some manifest ∧
      downloadLayers e (st.imageRoot ++ "/" ++ sha256Hex ref) manifest.layers 0 [] 0 st
        = (.ok (layers, total), stL) ∧
      lookupKey stE.images ref = some rec ∧
      rec.ID = "sha256:" ++ hexAscii (sha256Hex ref) ∧
      rec.Size = total ∧ rec.Layers = layers ∧
      stE.disk = stL.disk ∧ stE.cache = stL.cache := by
  unfold downloadImage at h
  split at h
  · simp only [Prod.mk.injEq] at h
    cases h.1
  next manifest hman =>
    simp only [] at h
    split at h
    next err stX heq =>
      simp only [Prod.mk.injEq, Except.error.injEq] at h
      obtain ⟨j, hj⟩ := downloadLayers_error_kind heq
      rw [h.1] at hj
      cases hj
    next layers totalSize stL heq =>
      split at h
      next u st3 hsv =>
        simp only [Prod.mk.injEq] at h
        obtain ⟨-, hst⟩ := h
        obtain ⟨h3, -⟩ := saveMetadata_err_inv hsv
        subst hst h3
        exact ⟨manifest, layers, totalSize, stL, _, hman, heq, lookupKey_setKey_self,
          rfl, rfl, rfl, rfl, rfl⟩
      next u st3 hsv =>
        simp only [Prod.mk.injEq] at h
        cases h.1

/-- C7: the claim is false on the code.  When a metadata write fails
during a fresh pull — whether the one inside downloadImage or the final
one in pullImage — the error is returned but nothing is rolled back: the
freshly inserted record is still in the catalog, and the disk and the
layer cache are exactly as the layer download loop left them, so the
downloaded layer files remain on disk. -/
theorem pullImage_save_failure_keeps_record (st : ServiceState) (e : Env) (ref : String)
    (auth : Option AuthConfig) (st1 : ServiceState)
    (hfresh : lookupKey st.images ref = none)
    (h : pullImage st e ref auth = (.error .saveFailed, st1)) :
    ∃ manifest layers total stL rec,
      e.manifest = some manifest ∧
      downloadLayers e (st.imageRoot ++ "/" ++ sha256Hex ref) manifest.layers 0 [] 0 st
        = (.ok (layers, total), stL) ∧
      lookupKey st1.images ref = some rec ∧
      rec.ID = "sha256:" ++ hexAscii (sha256Hex ref) ∧
      rec.Size = total ∧
      st1.disk = stL.disk ∧ st1.cache = stL.cache := by
  unfold pullImage at h
  split at h
  next img heq => rw [heq] at hfresh; cases hfresh
  next =>
    split at h
    · split at h
      next err stE heq =>
        simp only [Prod.mk.injEq, Except.error.injEq] at h
        obtain ⟨herr, hst⟩ := h
        subst hst
        rw [herr] at heq
        obtain ⟨manifest, layers, total, stL, rec, hman, hdl, hlook, hid, hsz, -, hdisk, hcache⟩ :=
          downloadImage_saveFailed_keeps heq
        exact ⟨manifest, layers, total, stL, rec, hman, hdl, hlook, hid, hsz, hdisk, hcache⟩
      next dgstHex totalSize stMid heqD =>
        simp only [] at h
        split at h
        next u st3 hsv =>
          simp only [Prod.mk.injEq] at h
          obtain ⟨-, hst⟩ := h
          obtain ⟨h3, -⟩ := saveMetadata_err_inv hsv
          subst hst h3
          obtain ⟨hd, -, recMid, -, -, -, -, -, manifest, stL, hman, hdl, -, hdisk, hcache⟩ :=
            downloadImage_ok_spec heqD
          subst hd
          exact ⟨manifest, recMid.Layers, totalSize, stL, _, hman, hdl, lookupKey_setKey_self,
            rfl, rfl, hdisk, hcache⟩
        next u st3 hsv =>
          simp only [Prod.mk.injEq] at h
          cases h.1
    · simp only [Prod.mk.injEq, Except.error.injEq] at h
      cases h.1
    · simp only [Prod.mk.injEq, Except.error.injEq] at h
      cases h.1
    · simp only [Prod.mk.injEq, Except.error.injEq] at h
      cases h.1

def c7Body : List Nat := [4, 2, 7]

/-- Registry serving a one-layer image, with the very first metadata
write of the run — the one inside downloadImage, after the layer has
been downloaded — failing. -/
def c7Env : Env :=
  { probeStatus := 200,
    manifest := some
      { schemaVersion := 2,
        mediaType := "application/vnd.docker.distribution.manifest.v2+json",
        config := ⟨"application/vnd.docker.container.image.v1+json", 1000, "sha256:cfgdigest"⟩,
        layers := [⟨"application/vnd.docker.image.rootfs.diff.tar.gzip", 3,
          sha256DigestStr c7Body⟩] },
    blob := fun d => if d = sha256DigestStr c7Body then some c7Body else none,
    saveFails := fun n => decide (n = 0),
    reuseFails := fun _ => false,
    rmFails := fun _ => false }

def c7Ref : String := "r.io/b:latest"

/-- C7: concrete failing run.  The layer is downloaded, then the metadata
write inside downloadImage fails; pullImage returns the save error, yet
the reference is still in the in-memory catalog and the downloaded
layer.tar is still on disk with its full content. -/
theorem pullImage_save_failure_counterexample :
    (pullImage c1St c7Env c7Ref none).1 = .error .saveFailed ∧
    lookupKey (pullImage c1St c7Env c7Ref none).2.images c7Ref ≠ none ∧
    lookupKey (pullImage c1St c7Env c7Ref none).2.disk
      ("/var/lib/image-service/" ++ sha256Hex c7Ref ++ "/layer-0/layer.tar")
      = some c7Body := by
  refine ⟨by decide, by decide, by decide⟩

theorem pullImage_save_failure_keeps_record_witness :
    lookupKey c1St.images c7Ref = none ∧
    pullImage c1St c7Env c7Ref none
      = (.error .saveFailed, (pullImage c1St c7Env c7Ref none).2) ∧
    ∃ manifest layers total stL rec,
      c7Env.manifest = some manifest ∧
      downloadLayers c7Env (c1St.imageRoot ++ "/" ++ sha256Hex c7Ref) manifest.layers 0 [] 0 c1St
        = (.ok (layers, total), stL) ∧
      lookupKey (pullImage c1St c7Env c7Ref none).2.images c7Ref = some rec ∧
      rec.ID = "sha256:" ++ hexAscii (sha256Hex c7Ref) ∧
      rec.Size = total ∧
      (pullImage c1St c7Env c7Ref none).2.disk = stL.disk ∧
      (pullImage c1St c7Env c7Ref none).2.cache = stL.cache :=
  ⟨by decide, by decide,
   pullImage_save_failure_keeps_record c1St c7Env c7Ref none
     (pullImage c1St c7Env c7Ref none).2 (by decide) (by decide)⟩

/-! ## The persisted record has no layers (claim C10) -/

/-- C10: after a successful fresh pull, the record finally stored for the
reference is the layer-less one built by pullImage: it overwrites the
record downloadImage inserted (same ID and size, but with the per-layer
records), and it is this layer-less catalog that the final metadata write
persists. -/
theorem pullImage_persists_layerless_record (st : ServiceState) (e : Env) (ref : String)
    (auth : Option AuthConfig) (id : String) (st1 : ServiceState)
    (hfresh : lookupKey st.images ref = none)
    (h : pullImage st e ref auth = (.ok id, st1)) :
    ∃ totalSize stMid rec recMid,
      downloadImage st e ref = (.ok (sha256Hex ref, totalSize), stMid) ∧
      lookupKey stMid.images ref = some recMid ∧
      recMid.ID = id ∧ recMid.Size = totalSize ∧
      rec = ({ ID := id, RepoTags := [ref],
               RepoDigests := [ref ++ "@sha256:" ++ sha256Hex ref],
               Size := totalSize } : imageMetadata) ∧
      rec.Layers = [] ∧
      st1.images = setKey stMid.images ref rec ∧
      lookupKey st1.images ref = some rec ∧
      st1.metadataFile = some st1.images := by
  obtain ⟨hid, t, stMid, hdl, himgs, hlook, hmeta, -, -⟩ := pullImage_fresh_ok hfresh h
  obtain ⟨-, -, recMid, hlookMid, hidMid, hszMid, -, -, -⟩ := downloadImage_ok_spec hdl
  exact ⟨t, stMid, _, recMid, hdl, hlookMid, by rw [hidMid, hid], hszMid, rfl, rfl, himgs,
    hlook, hmeta⟩

def c10Body : List Nat := [9, 8, 7, 6, 5]

def c10Env : Env :=
  { probeStatus := 200,
    manifest := some
      { schemaVersion := 2,
        mediaType := "application/vnd.docker.distribution.manifest.v2+json",
        config := ⟨"application/vnd.docker.container.image.v1+json", 1000, "sha256:cfgdigest"⟩,
        layers := [⟨"application/vnd.docker.image.rootfs.diff.tar.gzip", 5,
          sha256DigestStr c10Body⟩] },
    blob := fun d => if d = sha256DigestStr c10Body then some c10Body else none,
    saveFails := fun _ => false,
    reuseFails := fun _ => false,
    rmFails := fun _ => false }

def c10Ref : String := "r.io/c:latest"

def c10Id : String := "sha256:" ++ hexAscii (sha256Hex c10Ref)

/-- The record downloadImage builds for the c10 run: it carries the
per-layer record of the downloaded layer. -/
def c10MidRec : imageMetadata :=
  { ID := c10Id, RepoTags := [c10Ref],
    RepoDigests := [c10Ref ++ "@sha256:" ++ sha256Hex c10Ref], Size := 5,
    Layers := [⟨sha256DigestStr c10Body,
      "/var/lib/image-service/" ++ sha256Hex c10Ref ++ "/layer-0/layer.tar", 5⟩] }

def c10FinalRec : imageMetadata :=
  { ID := c10Id, RepoTags := [c10Ref],
    RepoDigests := [c10Ref ++ "@sha256:" ++ sha256Hex c10Ref], Size := 5 }

theorem pullImage_persists_layerless_record_witness :
    lookupKey c1St.images c10Ref = none ∧
    pullImage c1St c10Env c10Ref none = (.ok c10Id, (pullImage c1St c10Env c10Ref none).2) ∧
    lookupKey (downloadImage c1St c10Env c10Ref).2.images c10Ref = some c10MidRec ∧
    c10MidRec.Layers ≠ [] ∧
    lookupKey (pullImage c1St c10Env c10Ref none).2.images c10Ref = some c10FinalRec ∧
    (∃ totalSize stMid rec recMid,
      downloadImage c1St c10Env c10Ref = (.ok (sha256Hex c10Ref, totalSize), stMid) ∧
      lookupKey stMid.images c10Ref = some recMid ∧
      recMid.ID = c10Id ∧ recMid.Size = totalSize ∧
      rec = ({ ID := c10Id, RepoTags := [c10Ref],
               RepoDigests := [c10Ref ++ "@sha256:" ++ sha256Hex c10Ref],
               Size := totalSize } : imageMetadata) ∧
      rec.Layers = [] ∧
      (pullImage c1St c10Env c10Ref none).2.images = setKey stMid.images c10Ref rec ∧
      lookupKey (pullImage c1St c10Env c10Ref none).2.images c10Ref = some rec ∧
      (pullImage c1St c10Env c10Ref none).2.metadataFile
        = some (pullImage c1St c10Env c10Ref none).2.images) :=
  ⟨by decide, by decide, by decide, by decide, by decide,
   pullImage_persists_layerless_record c1St c10Env c10Ref none c10Id
     (pullImage c1St c10Env c10Ref none).2 (by decide) (by decide)⟩

/-! ## Size accounting of a pull (claim C4) -/

theorem downloadLayers_total {e : Env} {imageDir : String} :
    ∀ {descs : List Descriptor} {i : Nat} {layers : List LayerMetadata} {total : Int}
      {st : ServiceState} {res : List LayerMetadata × Int} {st1 : ServiceState},
    downloadLayers e imageDir descs i layers total st = (.ok res, st1) →
    ∃ recs contribs,
      res.1 = layers ++ recs ∧
      recs.length = descs.length ∧
      res.2 = total + List.sum contribs ∧
      List.Forall₂ (fun (c : Int) (pr : Descriptor × LayerMetadata) =>
        c = pr.1.size ∨ c = pr.2.size) contribs (descs.zip recs) := by
  intro descs
  induction descs with
  | nil =>
    intro i layers total st res st1 h
    unfold downloadLayers at h
    simp only [Prod.mk.injEq, Except.ok.injEq] at h
    obtain ⟨hres, -⟩ := h
    subst hres
    exact ⟨[], [], by simp, rfl, by simp, List.Forall₂.nil⟩
  | cons layer rest ih =>
    intro i layers total st res st1 h
    simp only [downloadLayers] at h
    split at h
    next metadata body hatt =>
      obtain ⟨recs, contribs, hr1, hr2, hr3, hr4⟩ := ih h
      refine ⟨metadata :: recs, metadata.size :: contribs, ?_, ?_, ?_, ?_⟩
      · rw [hr1, List.append_assoc]
        rfl
      · simp [hr2]
      · rw [hr3, List.sum_cons]
        ring
      · exact List.Forall₂.cons (Or.inr rfl) hr4
    next st1x hatt =>
      split at h
      · cases h
      next st2 hdl =>
        split at h
        · cases h
        next body2 hstat =>
          obtain ⟨recs, contribs, hr1, hr2, hr3, hr4⟩ := ih h
          refine ⟨(⟨layer.digest, imageDir ++ "/layer-" ++ toString i ++ "/layer.tar",
            ((body2.length : Nat) : Int)⟩ : LayerMetadata) :: recs,
            layer.size :: contribs, ?_, ?_, ?_, ?_⟩
          · rw [hr1, List.append_assoc]
            rfl
          · simp [hr2]
          · rw [hr3, List.sum_cons]
            ring
          · exact List.Forall₂.cons (Or.inl rfl) hr4

/-- C4 (amended): the size stored in the record of a successful fresh
pull is downloadImage's accumulated total: every processed manifest layer
contributes either its manifest-declared size (download path) or the
cached record's size (reuse path) — not necessarily the verified on-disk
byte length — and the final record holds no layer records at all. -/
theorem pullImage_size_spec (st : ServiceState) (e : Env) (ref : String)
    (auth : Option AuthConfig) (id : String) (st1 : ServiceState)
    (hfresh : lookupKey st.images ref = none)
    (h : pullImage st e ref auth = (.ok id, st1)) :
    ∃ rec manifest recs contribs stMid stL,
      lookupKey st1.images ref = some rec ∧
      rec.Layers = [] ∧
      e.manifest = some manifest ∧
      downloadImage st e ref = (.ok (sha256Hex ref, rec.Size), stMid) ∧
      downloadLayers e (st.imageRoot ++ "/" ++ sha256Hex ref) manifest.layers 0 [] 0 st
        = (.ok (recs, rec.Size), stL) ∧
      rec.Size = List.sum contribs ∧
      recs.length = manifest.layers.length ∧
      List.Forall₂ (fun (c : Int) (pr : Descriptor × LayerMetadata) =>
        c = pr.1.size ∨ c = pr.2.size) contribs (manifest.layers.zip recs) := by
  obtain ⟨hid, t, stMid, hdl, himgs, hlook, hmeta, -, -⟩ := pullImage_fresh_ok hfresh h
  obtain ⟨-, -, recMid, hlookMid, hidM, hszM, -, -, manifest, stL, hman, heqL, -⟩ :=
    downloadImage_ok_spec hdl
  obtain ⟨recs, contribs, hr1, hr2, hr3, hr4⟩ := downloadLayers_total heqL
  have hrecs : recs = recMid.Layers := by simpa using hr1.symm
  subst hrecs
  refine ⟨_, manifest, recMid.Layers, contribs, stMid, stL, hlook, rfl, hman, hdl, heqL,
    ?_, hr2, hr4⟩
  have hr3b : t = 0 + contribs.sum := hr3
  show t = contribs.sum
  omega

def c4Body : List Nat := [1, 2, 3, 4, 5]

/-- Registry whose manifest declares size 7 for a layer whose blob is 5
bytes; the digest check passes (digests match), the size claim is never
checked. -/
def c4Env : Env :=
  { probeStatus := 200,
    manifest := some
      { schemaVersion := 2,
        mediaType := "application/vnd.docker.distribution.manifest.v2+json",
        config := ⟨"application/vnd.docker.container.image.v1+json", 1000, "sha256:cfgdigest"⟩,
        layers := [⟨"application/vnd.docker.image.rootfs.diff.tar.gzip", 7,
          sha256DigestStr c4Body⟩] },
    blob := fun d => if d = sha256DigestStr c4Body then some c4Body else none,
    saveFails := fun _ => false,
    reuseFails := fun _ => false,
    rmFails := fun _ => false }

def c4Ref : String := "r.io/d:latest"

def c4Id : String := "sha256:" ++ hexAscii (sha256Hex c4Ref)

def c4MidRec : imageMetadata :=
  { ID := c4Id, RepoTags := [c4Ref],
    RepoDigests := [c4Ref ++ "@sha256:" ++ sha256Hex c4Ref], Size := 7,
    Layers := [⟨sha256DigestStr c4Body,
      "/var/lib/image-service/" ++ sha256Hex c4Ref ++ "/layer-0/layer.tar", 5⟩] }

def c4FinalRec : imageMetadata :=
  { ID := c4Id, RepoTags := [c4Ref],
    RepoDigests := [c4Ref ++ "@sha256:" ++ sha256Hex c4Ref], Size := 7 }

/-- C4: the claim is false on the code.  A successful one-layer pull with
manifest-declared size 7 and a 5-byte verified blob stores a record of
size 7; the final record has no layer records (their size sum is 0), and
even the intermediate record sums its layer sizes to 5, not 7. -/
theorem pullImage_size_counterexample :
    (pullImage c1St c4Env c4Ref none).1 = .ok c4Id ∧
    lookupKey (pullImage c1St c4Env c4Ref none).2.images c4Ref = some c4FinalRec ∧
    c4FinalRec.Size = 7 ∧
    c4FinalRec.Layers = [] ∧
    c4FinalRec.Size ≠ List.sum (c4FinalRec.Layers.map LayerMetadata.size) ∧
    lookupKey (downloadImage c1St c4Env c4Ref).2.images c4Ref = some c4MidRec ∧
    List.sum (c4MidRec.Layers.map LayerMetadata.size) = 5 ∧
    c4MidRec.Size ≠ List.sum (c4MidRec.Layers.map LayerMetadata.size) ∧
    lookupKey (downloadImage c1St c4Env c4Ref).2.disk
      ("/var/lib/image-service/" ++ sha256Hex c4Ref ++ "/layer-0/layer.tar") = some c4Body := by
  refine ⟨by decide, by decide, by decide, by decide, by decide, by decide, by decide,
    by decide, by decide⟩

theorem pullImage_size_spec_witness :
    lookupKey c1St.images c4Ref = none ∧
    pullImage c1St c4Env c4Ref none = (.ok c4Id, (pullImage c1St c4Env c4Ref none).2) ∧
    (∃ rec manifest recs contribs stMid stL,
      lookupKey (pullImage c1St c4Env c4Ref none).2.images c4Ref = some rec ∧
      rec.Layers = [] ∧
      c4Env.manifest = some manifest ∧
      downloadImage c1St c4Env c4Ref = (.ok (sha256Hex c4Ref, rec.Size), stMid) ∧
      downloadLayers c4Env (c1St.imageRoot ++ "/" ++ sha256Hex c4Ref) manifest.layers 0 [] 0 c1St
        = (.ok (recs, rec.Size), stL) ∧
      rec.Size = List.sum contribs ∧
      recs.length = manifest.layers.length ∧
      List.Forall₂ (fun (c : Int) (pr : Descriptor × LayerMetadata) =>
        c = pr.1.size ∨ c = pr.2.size) contribs (manifest.layers.zip recs)) :=
  ⟨by decide, by decide,
   pullImage_size_spec c1St c4Env c4Ref none c4Id (pullImage c1St c4Env c4Ref none).2
     (by decide) (by decide)⟩

/-! ## Remove pipeline (claim C2) -/

theorem mem_eraseKey_iff {α : Type} {l : List (String × α)} {k : String} {p : String × α} :
    p ∈ eraseKey l k ↔ (p ∈ l ∧ p.1 ≠ k) := by
  constructor
  · exact mem_eraseKey
  · intro h
    exact mem_eraseKey_of_mem h.1 h.2

theorem removeLayers_disk (e : Env) (inUse : List String)
    (hrm : ∀ p, e.rmFails p = false) :
    ∀ (lys : List LayerMetadata) (c : LayerCache) (disk : Disk) (f : String × List Nat),
    (f ∈ (lys.foldl (removeLayerStep e inUse) (c, disk)).2 ↔
      (f ∈ disk ∧ ¬ ∃ layer ∈ lys, layer.path = f.1 ∧ layer.digest ∉ inUse ∧ layer.path ≠ "")) := by
  intro lys
  induction lys with
  | nil =>
    intro c disk f
    simp
  | cons ly rest ih =>
    intro c disk f
    rw [List.foldl_cons]
    by_cases hin : ly.digest ∈ inUse
    · have hstep : removeLayerStep e inUse (c, disk) ly = (c, disk) := by
        unfold removeLayerStep
        rw [if_pos hin]
      rw [hstep, ih]
      constructor
      · rintro ⟨hd, hno⟩
        refine ⟨hd, ?_⟩
        rintro ⟨layer, hmem, h1, h2, h3⟩
        rcases List.mem_cons.mp hmem with he | hm
        · exact h2 (he ▸ hin)
        · exact hno ⟨layer, hm, h1, h2, h3⟩
      · rintro ⟨hd, hno⟩
        exact ⟨hd, fun ⟨layer, hm, h1, h2, h3⟩ => hno ⟨layer, List.mem_cons_of_mem ly hm, h1, h2, h3⟩⟩
    · by_cases hp : ly.path = ""
      · have hstep : removeLayerStep e inUse (c, disk) ly
            = (LayerCache.Remove c ly.digest, disk) := by
          unfold removeLayerStep
          rw [if_neg hin]
          simp [hp]
        rw [hstep, ih]
        constructor
        · rintro ⟨hd, hno⟩
          refine ⟨hd, ?_⟩
          rintro ⟨layer, hmem, h1, h2, h3⟩
          rcases List.mem_cons.mp hmem with he | hm
          · exact h3 (he ▸ hp)
          · exact hno ⟨layer, hm, h1, h2, h3⟩
        · rintro ⟨hd, hno⟩
          exact ⟨hd, fun ⟨layer, hm, h1, h2, h3⟩ =>
            hno ⟨layer, List.mem_cons_of_mem ly hm, h1, h2, h3⟩⟩
      · have hstep : removeLayerStep e inUse (c, disk) ly
            = (LayerCache.Remove c ly.digest, removeFile disk ly.path) := by
          unfold removeLayerStep
          rw [if_neg hin]
          have : (ly.path ≠ "" ∧ ¬e.rmFails ly.path = true) := ⟨hp, by simp [hrm]⟩
          rw [if_pos this]
        rw [hstep, ih]
        unfold removeFile
        rw [mem_eraseKey_iff]
        constructor
        · rintro ⟨⟨hd, hne⟩, hno⟩
          refine ⟨hd, ?_⟩
          rintro ⟨layer, hmem, h1, h2, h3⟩
          rcases List.mem_cons.mp hmem with he | hm
          · exact hne (by rw [← h1, he])
          · exact hno ⟨layer, hm, h1, h2, h3⟩
        · rintro ⟨hd, hno⟩
          refine ⟨⟨hd, ?_⟩, ?_⟩
          · intro he
            exact hno ⟨ly, List.mem_cons_self ly rest, he.symm, hin, hp⟩
          · rintro ⟨layer, hm, h1, h2, h3⟩
            exact hno ⟨layer, List.mem_cons_of_mem ly hm, h1, h2, h3⟩

/-- C2 (amended): a successful remove deletes the record (others are
untouched) and persists the catalog; a layer file is unlinked iff its
digest is used by no surviving record OR it lies under the removed
image's directory, which is removed recursively regardless of sharing. -/
theorem removeImage_spec (st : ServiceState) (e : Env) (ref : String) (img : imageMetadata)
    (himg : lookupKey st.images ref = some img)
    (hrm : ∀ p, e.rmFails p = false)
    (hsv : e.saveFails st.saveCalls = false) :
    ∃ st1, removeImage st e ref = (.ok (), st1) ∧
      lookupKey st1.images ref = none ∧
      (∀ r, r ≠ ref → lookupKey st1.images r = lookupKey st.images r) ∧
      st1.metadataFile = some st1.images ∧
      (∀ f, f ∈ st1.disk ↔
        (f ∈ st.disk ∧
         ¬((∃ layer ∈ img.Layers, layer.path = f.1 ∧
              layer.digest ∉ (st.images.filter (fun p => p.1 != ref)).flatMap
                (fun p => p.2.Layers.map (fun layer => layer.digest)) ∧
              layer.path ≠ "") ∨
           (strIsPrefixOf (st.imageRoot ++ "/" ++ sha256Hex ref ++ "/") f.1 = true ∨
            f.1 = st.imageRoot ++ "/" ++ sha256Hex ref)))) := by
  unfold removeImage
  rw [himg]
  simp only [saveMetadata, hrm, hsv, Bool.false_eq_true, if_false]
  refine ⟨_, rfl, ?_, ?_, ?_, ?_⟩
  · exact lookupKey_eraseKey_self
  · intro r hr
    exact lookupKey_eraseKey_ne hr
  · rfl
  · intro f
    rw [List.mem_filter]
    rw [removeLayers_disk e _ hrm img.Layers st.cache st.disk f]
    simp only [decide_eq_true_eq, not_or]
    tauto

def c2Ref : String := "r.io/a:latest"

def c2Path : String := "/var/lib/image-service/" ++ sha256Hex c2Ref ++ "/layer-0/layer.tar"

def c2ImgA : imageMetadata :=
  { ID := "sha256:ida", RepoTags := [c2Ref], RepoDigests := [], Size := 4,
    Layers := [⟨"sha256:d1", c2Path, 4⟩] }

/-- Record of a second image whose pull reused the first image's layer:
the cached record is appended as-is, so its path points into the first
image's directory. -/
def c2ImgB : imageMetadata :=
  { ID := "sha256:idb", RepoTags := ["r.io/b:latest"], RepoDigests := [], Size := 4,
    Layers := [⟨"sha256:d1", c2Path, 4⟩] }

def c2St : ServiceState :=
  { imageRoot := "/var/lib/image-service",
    images := [(c2Ref, c2ImgA), ("r.io/b:latest", c2ImgB)],
    metadataFile := some [(c2Ref, c2ImgA), ("r.io/b:latest", c2ImgB)],
    disk := [(c2Path, [1, 2, 3, 4])],
    cache := NewLayerCache 10737418240, clock := 0, saveCalls := 0 }

/-- C2: the claim is false on the code.  Removing image A succeeds while
image B still references layer digest sha256:d1, yet the backing file of
that layer is gone: it lived under A's image directory, which removeImage
deletes recursively after the reference-counting loop spared it. -/
theorem removeImage_shared_layer_counterexample :
    (removeImage c2St c1Env c2Ref).1 = .ok () ∧
    lookupKey (removeImage c2St c1Env c2Ref).2.images "r.io/b:latest" = some c2ImgB ∧
    "sha256:d1" ∈ c2ImgB.Layers.map LayerMetadata.digest ∧
    c2ImgB.Layers.map LayerMetadata.path = [c2Path] ∧
    lookupKey c2St.disk c2Path = some [1, 2, 3, 4] ∧
    lookupKey (removeImage c2St c1Env c2Ref).2.disk c2Path = none := by
  refine ⟨by decide, by decide, by decide, by decide, by decide, by decide⟩

def w2Shared : String := "/var/lib/image-service/shared/layer.tar"

def w2Solo : String := "/var/lib/image-service/solo/layer.tar"

def w2ImgA : imageMetadata :=
  { ID := "sha256:wa", RepoTags := ["r.io/wa:latest"], RepoDigests := [], Size := 5,
    Layers := [⟨"sha256:s1", w2Shared, 3⟩, ⟨"sha256:s2", w2Solo, 2⟩] }

def w2ImgB : imageMetadata :=
  { ID := "sha256:wb", RepoTags := ["r.io/wb:latest"], RepoDigests := [], Size := 3,
    Layers := [⟨"sha256:s1", "/var/lib/image-service/bcopy/layer.tar", 3⟩] }

def w2St : ServiceState :=
  { imageRoot := "/var/lib/image-service",
    images := [("r.io/wa:latest", w2ImgA), ("r.io/wb:latest", w2ImgB)],
    metadataFile := some [("r.io/wa:latest", w2ImgA), ("r.io/wb:latest", w2ImgB)],
    disk := [(w2Shared, [1, 2, 3]), (w2Solo, [4, 5]),
             ("/var/lib/image-service/bcopy/layer.tar", [1, 2, 3])],
    cache := NewLayerCache 10737418240, clock := 0, saveCalls := 0 }

theorem removeImage_spec_witness :
    lookupKey w2St.images "r.io/wa:latest" = some w2ImgA ∧
    (∃ st1, removeImage w2St c1Env "r.io/wa:latest" = (.ok (), st1) ∧
      lookupKey st1.images "r.io/wa:latest" = none ∧
      (∀ r, r ≠ "r.io/wa:latest" → lookupKey st1.images r = lookupKey w2St.images r) ∧
      st1.metadataFile = some st1.images ∧
      (∀ f, f ∈ st1.disk ↔
        (f ∈ w2St.disk ∧
         ¬((∃ layer ∈ w2ImgA.Layers, layer.path = f.1 ∧
              layer.digest ∉ (w2St.images.filter
                (fun p => p.1 != "r.io/wa:latest")).flatMap
                  (fun p => p.2.Layers.map (fun layer => layer.digest)) ∧
              layer.path ≠ "") ∨
           (strIsPrefixOf (w2St.imageRoot ++ "/" ++ sha256Hex "r.io/wa:latest" ++ "/") f.1
              = true ∨
            f.1 = w2St.imageRoot ++ "/" ++ sha256Hex "r.io/wa:latest"))))) :=
  ⟨by decide,
   removeImage_spec w2St c1Env "r.io/wa:latest" w2ImgA (by decide) (fun p => rfl) (by decide)⟩

/-! ## Garbage collection (claim C9) -/

theorem gcLoop_spec (e : Env) (referenced : List String) :
    ∀ (files : List (String × List Nat)) (disk : Disk) (removed total : Int),
    (gcLoop e referenced files disk removed total).2.2
      = total + List.sum ((files.filter (fun f => decide (f.1 ∉ referenced))).map
          (fun f => ((f.2.length : Nat) : Int))) ∧
    (gcLoop e referenced files disk removed total).2.1
      = removed + ((files.filter
          (fun f => decide (f.1 ∉ referenced) && !e.rmFails f.1)).length : Int) ∧
    (∀ g, g ∈ (gcLoop e referenced files disk removed total).1 ↔
      (g ∈ disk ∧ ¬∃ f ∈ files, f.1 = g.1 ∧ f.1 ∉ referenced ∧ e.rmFails f.1 = false)) := by
  intro files
  induction files with
  | nil =>
    intro disk removed total
    refine ⟨by simp [gcLoop], by simp [gcLoop], ?_⟩
    intro g
    simp [gcLoop]
  | cons f rest ih =>
    intro disk removed total
    by_cases href : f.1 ∈ referenced
    · have hstep : gcLoop e referenced (f :: rest) disk removed total
          = gcLoop e referenced rest disk removed total := by
        conv_lhs => rw [gcLoop]
        rw [if_pos href]
      have hfilt : decide (f.1 ∉ referenced) = false := by simp [href]
      obtain ⟨ih1, ih2, ih3⟩ := ih disk removed total
      rw [hstep]
      refine ⟨?_, ?_, ?_⟩
      · rw [List.filter_cons_of_neg (by simp [hfilt])]
        exact ih1
      · rw [List.filter_cons_of_neg (by simp [hfilt])]
        exact ih2
      · intro g
        rw [ih3 g]
        constructor
        · rintro ⟨hd, hno⟩
          refine ⟨hd, ?_⟩
          rintro ⟨x, hx, h1, h2, h3⟩
          rcases List.mem_cons.mp hx with he | hm
          · exact h2 (he ▸ href)
          · exact hno ⟨x, hm, h1, h2, h3⟩
        · rintro ⟨hd, hno⟩
          exact ⟨hd, fun ⟨x, hm, h1, h2, h3⟩ =>
            hno ⟨x, List.mem_cons_of_mem f hm, h1, h2, h3⟩⟩
    · have hfilt : decide (f.1 ∉ referenced) = true := by simp [href]
      by_cases hrm : e.rmFails f.1 = true
      · have hstep : gcLoop e referenced (f :: rest) disk removed total
            = gcLoop e referenced rest disk removed (total + ((f.2.length : Nat) : Int)) := by
          conv_lhs => rw [gcLoop]
          rw [if_neg href, if_pos hrm]
        obtain ⟨ih1, ih2, ih3⟩ := ih disk removed (total + ((f.2.length : Nat) : Int))
        rw [hstep]
        refine ⟨?_, ?_, ?_⟩
        · rw [List.filter_cons_of_pos (by simp [hfilt]), List.map_cons, List.sum_cons, ih1]
          ring
        · rw [List.filter_cons_of_neg (by simp [hrm])]
          exact ih2
        · intro g
          rw [ih3 g]
          constructor
          · rintro ⟨hd, hno⟩
            refine ⟨hd, ?_⟩
            rintro ⟨x, hx, h1, h2, h3⟩
            rcases List.mem_cons.mp hx with he | hm
            · rw [he] at h3
              rw [h3] at hrm
              cases hrm
            · exact hno ⟨x, hm, h1, h2, h3⟩
          · rintro ⟨hd, hno⟩
            exact ⟨hd, fun ⟨x, hm, h1, h2, h3⟩ =>
              hno ⟨x, List.mem_cons_of_mem f hm, h1, h2, h3⟩⟩
      · have hstep : gcLoop e referenced (f :: rest) disk removed total
            = gcLoop e referenced rest (removeFile disk f.1) (removed + 1)
                (total + ((f.2.length : Nat) : Int)) := by
          conv_lhs => rw [gcLoop]
          rw [if_neg href, if_neg hrm]
        obtain ⟨ih1, ih2, ih3⟩ :=
          ih (removeFile disk f.1) (removed + 1) (total + ((f.2.length : Nat) : Int))
        rw [hstep]
        refine ⟨?_, ?_, ?_⟩
        · rw [List.filter_cons_of_pos (by simp [hfilt]), List.map_cons, List.sum_cons, ih1]
          ring
        · rw [List.filter_cons_of_pos (by simp [hfilt, hrm]), ih2]
          simp only [List.length_cons]
          push_cast
          ring
        · intro g
          rw [ih3 g]
          unfold removeFile
          rw [mem_eraseKey_iff]
          have hrmf : e.rmFails f.1 = false := by
            cases hb : e.rmFails f.1
            · rfl
            · exact absurd hb hrm
          constructor
          · rintro ⟨⟨hd, hne⟩, hno⟩
            refine ⟨hd, ?_⟩
            rintro ⟨x, hx, h1, h2, h3⟩
            rcases List.mem_cons.mp hx with he | hm
            · exact hne (by rw [← h1, he])
            · exact hno ⟨x, hm, h1, h2, h3⟩
          · rintro ⟨hd, hno⟩
            refine ⟨⟨hd, ?_⟩, ?_⟩
            · intro he
              exact hno ⟨f, List.mem_cons_self f rest, he.symm, href, hrmf⟩
            · rintro ⟨x, hm, h1, h2, h3⟩
              exact hno ⟨x, List.mem_cons_of_mem f hm, h1, h2, h3⟩

/-- Helper: two entries of a key-nodup association list with the same key
are the same entry. -/
theorem entry_unique {α : Type} {l : List (String × α)} {p q : String × α}
    (nd : (l.map Prod.fst).Nodup) (hp : p ∈ l) (hq : q ∈ l) (hk : p.1 = q.1) : p = q := by
  have h1 : lookupKey l p.1 = some p.2 := by
    cases p
    exact mem_lookupKey nd hp
  have h2 : lookupKey l q.1 = some q.2 := by
    cases q
    exact mem_lookupKey nd hq
  rw [hk, h2] at h1
  cases p
  cases q
  simp_all

/-- C9 (amended): a collection pass leaves the catalog, the metadata file
and the cache untouched; it removes exactly the unreferenced layer.tar
files under the image root whose unlink succeeds; LastCollectionSize is
the summed size of all unreferenced layer.tar files it statted, whether
or not their unlink succeeded; TotalLayersRemoved counts only the
successful unlinks. -/
theorem collectGarbage_spec (st : ServiceState) (e : Env) (stats : GCStats) (now : Nat)
    (nd : (st.disk.map Prod.fst).Nodup) :
    (collectGarbage st e stats now).1.images = st.images ∧
    (collectGarbage st e stats now).1.metadataFile = st.metadataFile ∧
    (collectGarbage st e stats now).1.cache = st.cache ∧
    (collectGarbage st e stats now).2.lastRun = now ∧
    (collectGarbage st e stats now).2.totalCollections = stats.totalCollections + 1 ∧
    (collectGarbage st e stats now).2.lastCollectionSize
      = List.sum ((gcOrphans st).map (fun f => ((f.2.length : Nat) : Int))) ∧
    (collectGarbage st e stats now).2.totalLayersRemoved
      = stats.totalLayersRemoved
        + (((gcOrphans st).filter (fun f => !e.rmFails f.1)).length : Int) ∧
    (∀ f, f ∈ (collectGarbage st e stats now).1.disk ↔
       (f ∈ st.disk ∧ ¬(f ∈ gcOrphans st ∧ e.rmFails f.1 = false))) := by
  obtain ⟨h1, h2, h3⟩ := gcLoop_spec e (gcReferenced st) (gcLayerFiles st) st.disk 0 0
  have horph : (gcLayerFiles st).filter (fun f => decide (f.1 ∉ gcReferenced st))
      = gcOrphans st := rfl
  refine ⟨rfl, rfl, rfl, rfl, rfl, ?_, ?_, ?_⟩
  · show (gcLoop e (gcReferenced st) (gcLayerFiles st) st.disk 0 0).2.2 = _
    rw [h1, horph]
    ring
  · show stats.totalLayersRemoved
        + (gcLoop e (gcReferenced st) (gcLayerFiles st) st.disk 0 0).2.1 = _
    rw [h2]
    have : (gcLayerFiles st).filter (fun f => decide (f.1 ∉ gcReferenced st) && !e.rmFails f.1)
        = (gcOrphans st).filter (fun f => !e.rmFails f.1) := by
      rw [← horph, List.filter_filter]
      exact List.filter_congr fun a _ => Bool.and_comm _ _
    rw [this]
    ring
  · intro f
    show f ∈ (gcLoop e (gcReferenced st) (gcLayerFiles st) st.disk 0 0).1 ↔ _
    rw [h3 f]
    constructor
    · rintro ⟨hd, hno⟩
      refine ⟨hd, ?_⟩
      rintro ⟨horf, hrmf⟩
      have hlf : f ∈ gcLayerFiles st := (List.mem_filter.mp horf).1
      have hnref : f.1 ∉ gcReferenced st := by
        have := (List.mem_filter.mp horf).2
        simpa using this
      exact hno ⟨f, hlf, rfl, hnref, hrmf⟩
    · rintro ⟨hd, hno⟩
      refine ⟨hd, ?_⟩
      rintro ⟨g, hg, h1g, h2g, h3g⟩
      have hgd : g ∈ st.disk := (List.mem_filter.mp hg).1
      have hgf : g = f := entry_unique nd hgd hd h1g
      subst hgf
      apply hno
      refine ⟨?_, h3g⟩
      unfold gcOrphans
      refine List.mem_filter.mpr ⟨hg, ?_⟩
      simpa using h2g

def c9St : ServiceState :=
  { imageRoot := "/var/lib/image-service", images := [], metadataFile := none,
    disk := [("/var/lib/image-service/x1/layer.tar", [1, 2, 3])],
    cache := NewLayerCache 100, clock := 0, saveCalls := 0 }

def c9Env : Env :=
  { probeStatus := 200, manifest := none, blob := fun _ => none,
    saveFails := fun _ => false, reuseFails := fun _ => false,
    rmFails := fun p => p == "/var/lib/image-service/x1/layer.tar" }

def c9Stats : GCStats := ⟨0, 0, 0, 0⟩

/-- C9: the claim is false on the code.  When the unlink of the only
orphan fails (logged and skipped), the pass removes no file at all, yet
LastCollectionSize is set to 3, the size of the orphan, because the size
is accounted before the unlink is attempted; the sum of the sizes of the
files it removed is 0. -/
theorem collectGarbage_size_counterexample :
    (collectGarbage c9St c9Env c9Stats 5).1.disk = c9St.disk ∧
    (collectGarbage c9St c9Env c9Stats 5).2.totalLayersRemoved = 0 ∧
    (collectGarbage c9St c9Env c9Stats 5).2.lastCollectionSize = 3 ∧
    (collectGarbage c9St c9Env c9Stats 5).2.lastCollectionSize ≠ 0 := by
  refine ⟨by decide, by decide, by decide, by decide⟩

def w9Img : imageMetadata :=
  { ID := "sha256:w9", RepoTags := ["r.io/w9:latest"], RepoDigests := [], Size := 2,
    Layers := [⟨"sha256:w9l", "/var/lib/image-service/keep/layer.tar", 2⟩] }

def w9St : ServiceState :=
  { imageRoot := "/var/lib/image-service", images := [("r.io/w9:latest", w9Img)],
    metadataFile := some [("r.io/w9:latest", w9Img)],
    disk := [("/var/lib/image-service/keep/layer.tar", [1, 2]),
             ("/var/lib/image-service/orphan/layer.tar", [3, 4, 5]),
             ("/var/lib/image-service/metadata.json", [9]),
             ("/elsewhere/layer.tar", [7])],
    cache := NewLayerCache 100, clock := 0, saveCalls := 0 }

theorem collectGarbage_spec_witness :
    (w9St.disk.map Prod.fst).Nodup ∧
    ((collectGarbage w9St c1Env c9Stats 11).1.images = w9St.images ∧
     (collectGarbage w9St c1Env c9Stats 11).1.metadataFile = w9St.metadataFile ∧
     (collectGarbage w9St c1Env c9Stats 11).1.cache = w9St.cache ∧
     (collectGarbage w9St c1Env c9Stats 11).2.lastRun = 11 ∧
     (collectGarbage w9St c1Env c9Stats 11).2.totalCollections = c9Stats.totalCollections + 1 ∧
     (collectGarbage w9St c1Env c9Stats 11).2.lastCollectionSize
       = List.sum ((gcOrphans w9St).map (fun f => ((f.2.length : Nat) : Int))) ∧
     (collectGarbage w9St c1Env c9Stats 11).2.totalLayersRemoved
       = c9Stats.totalLayersRemoved
         + (((gcOrphans w9St).filter (fun f => !c1Env.rmFails f.1)).length : Int) ∧
     (∀ f, f ∈ (collectGarbage w9St c1Env c9Stats 11).1.disk ↔
        (f ∈ w9St.disk ∧ ¬(f ∈ gcOrphans w9St ∧ c1Env.rmFails f.1 = false)))) :=
  ⟨by decide, collectGarbage_spec w9St c1Env c9Stats 11 (by decide)⟩
